import Mathlib

/-!
Verification of the smart-data-sanitizer core (detectors, replacer, walker).

The Python source is shallowly embedded:
  * Python `str` is Lean `String` (a wrapper around `List Char`); the case and
    character-class predicates (`isupper`, `islower`, `isdigit`, `\d`, `\s`,
    `\w`) are modelled over their ASCII meaning, which is the range the
    source's regexes (`[A-Za-z0-9...]` etc.) explicitly use.
  * Python `re` patterns are embedded as a small regex AST (`Re`) together
    with a backtracking matcher whose result list is ordered by the
    leftmost-greedy priority Python uses; `Re.scanAux` is `re.finditer`.
  * The external Faker library is modelled as abstract value streams
    (`FakerGen`) indexed by a draw counter, mirroring a seeded RNG.
  * File I/O in `Sanitizer.sanitize_file` is modelled by an `Except`
    parameter for the read outcome and a `WriteOutcome` parameter for the
    write: `_write_json_file` opens the output with `open(path, "w")`
    (truncating it) and then streams `json.dump` into it, so a failure
    during the dump leaves a partial prefix of the serialized output on
    disk; the model tracks the content left at the output path. The
    exception messages follow the f-strings of `exceptions.py` /
    `sanitizer.py`.
-/

/-- `PIIType` from `models.py`: closed enumeration of supported PII types. -/
inductive PIIType where
  | email
  | phone
  | fullName
  | firstName
  | lastName
  | creditCard
deriving DecidableEq

/-- `DetectionResult` from `models.py`.  Positions are character offsets;
`start_pos`/`end_pos` default to 0 ("position unknown").  `confidence` is
modelled as a rational (the source only ever uses the exact value 1.0). -/
structure DetectionResult where
  pii_type : PIIType
  original_value : String
  confidence : ℚ
  start_pos : Int := 0
  end_pos : Int := 0
deriving DecidableEq

/-- ASCII model of the regex word character `\w` = `[A-Za-z0-9_]`. -/
def isWordChar (c : Char) : Bool :=
  c.isAlphanum || c = '_'

/-- ASCII model of the regex whitespace `\s` = `[ \t\n\r\f\v]`. -/
def isSpaceChar (c : Char) : Bool :=
  c = ' ' || c = '\t' || c = '\n' || c = '\r' || c = '\x0b' || c = '\x0c'

/-- The class `[\s\-]` used by the credit-card pattern. -/
def isSepChar (c : Char) : Bool :=
  isSpaceChar c || c = '-'

/-- The class `[-.\s]` used by the phone patterns. -/
def isDashDotSpace (c : Char) : Bool :=
  c = '-' || c = '.' || isSpaceChar c

/-- Regex AST covering exactly the constructs appearing in the source's
patterns: character classes, bounded/unbounded greedy repetition of a class,
sequencing, (ordered) alternation, and the word-boundary assertion `\b`. -/
inductive Re where
  | eps
  | cls (p : Char → Bool)
  | reps (lo : Nat) (hi : Option Nat) (p : Char → Bool)
  | seq (a b : Re)
  | alt (a b : Re)
  | bnd

/-- `p?` — greedy optional single character of a class. -/
def Re.opt (p : Char → Bool) : Re :=
  Re.reps 0 (some 1) p

/-- `p{m}` — exactly `m` characters of a class. -/
def Re.exactly (m : Nat) (p : Char → Bool) : Re :=
  Re.reps m (some m) p

/-- Python's `\b`: the two sides differ in word-character-ness (out of range
counts as non-word). -/
def boundaryOk (l r : List Char) : Bool :=
  match l.head?, r.head? with
  | none, none => false
  | none, some c => isWordChar c
  | some c, none => isWordChar c
  | some c, some c' => isWordChar c != isWordChar c'

/-- Consumption candidates of a greedy repetition `p{lo,hi}` at a position
whose remaining input is `r`: every length from the longest feasible run down
to `lo`, in that (greedy backtracking) order. -/
def repCandidates (lo : Nat) (hi : Option Nat) (p : Char → Bool) (r : List Char) : List Nat :=
  let run := (r.takeWhile p).length
  let maxK := match hi with
    | none => run
    | some h => min h run
  if lo ≤ maxK then (List.range (maxK + 1 - lo)).map (fun i => maxK - i) else []

/-- Backtracking matcher.  A state is `(left, rest)` where `left` is the
reversed already-consumed prefix (needed by `\b`) and `rest` the remaining
input.  The returned states are ordered by Python's leftmost-greedy match
priority, so the head of the list is the match `re.match` would give. -/
def Re.run : Re → List Char × List Char → List (List Char × List Char)
  | .eps, st => [st]
  | .cls p, (l, r) =>
    match r with
    | [] => []
    | c :: rs => if p c then [(c :: l, rs)] else []
  | .reps lo hi p, (l, r) =>
    (repCandidates lo hi p r).map fun k => ((r.take k).reverse ++ l, r.drop k)
  | .seq a b, st => (a.run st).flatMap b.run
  | .alt a b, st => a.run st ++ b.run st
  | .bnd, (l, r) => if boundaryOk l r then [(l, r)] else []

/-- Can the pattern match the empty string?  (Conservative for `bnd`.) -/
def Re.nullable : Re → Bool
  | .eps => true
  | .cls _ => false
  | .reps lo _ _ => lo = 0
  | .seq a b => a.nullable && b.nullable
  | .alt a b => a.nullable || b.nullable
  | .bnd => true

/-- `re.finditer`: repeatedly take the leftmost-greedy match, record its span
`[start, end)`, and continue after it (zero-width matches advance one
character, as Python does).  Fuel-based so that the kernel can evaluate it;
fuel `r.length + 1` always suffices (see `Re.scan`). -/
def Re.scanAux : Nat → Re → List Char → List Char → List (Nat × Nat)
  | 0, _, _, _ => []
  | fuel + 1, re, l, r =>
    match (re.run (l, r)).head? with
    | some (l', r') =>
      if r'.length < r.length then
        (l.length, l.length + (r.length - r'.length)) :: Re.scanAux fuel re l' r'
      else
        match r with
        | [] => [(l.length, l.length)]
        | c :: rest => (l.length, l.length) :: Re.scanAux fuel re (c :: l) rest
    | none =>
      match r with
      | [] => []
      | c :: rest => Re.scanAux fuel re (c :: l) rest

/-- All match spans of `re` over `text` (character offsets). -/
def Re.scan (re : Re) (text : List Char) : List (Nat × Nat) :=
  Re.scanAux (text.length + 1) re [] text

/-- `text[s:e]` for `0 ≤ s ≤ e ≤ len` — the slice a regex match's
`group(0)` denotes. -/
def extractSpan (text : List Char) (s e : Nat) : List Char :=
  (text.drop s).take (e - s)

/-- `EMAIL_PATTERN` from `email_detector.py`:
`\b[A-Za-z0-9._%+-]+@[A-Za-z0-9.-]+\.[A-Z|a-z]{2,}\b`. -/
def localChar (c : Char) : Bool :=
  c.isAlphanum || c = '.' || c = '_' || c = '%' || c = '+' || c = '-'

/-- The domain class `[A-Za-z0-9.-]`. -/
def domainChar (c : Char) : Bool :=
  c.isAlphanum || c = '.' || c = '-'

/-- The TLD class `[A-Z|a-z]` (it literally contains `|`). -/
def tldChar (c : Char) : Bool :=
  c.isAlpha || c = '|'

/-- The compiled email pattern. -/
def EMAIL_PATTERN : Re :=
  .seq .bnd (.seq (.reps 1 none localChar)
    (.seq (.cls (· = '@')) (.seq (.reps 1 none domainChar)
      (.seq (.cls (· = '.')) (.seq (.reps 2 none tldChar) .bnd)))))

/-- `EmailDetector.detect`: every regex match becomes one result with
confidence 1.0, in left-to-right order. -/
def emailDetect (text : String) : List DetectionResult :=
  (EMAIL_PATTERN.scan text.data).map fun p =>
    { pii_type := .email
      original_value := String.mk (extractSpan text.data p.1 p.2)
      confidence := 1
      start_pos := (p.1 : Int)
      end_pos := (p.2 : Int) }

/-- Phone pattern 1: `\+\d{1,3}[-.\s]?\(?\d{1,4}\)?[-.\s]?\d{1,4}[-.\s]?\d{1,4}[-.\s]?\d{1,4}`. -/
def PHONE_PATTERN1 : Re :=
  .seq (.cls (· = '+')) (.seq (.reps 1 (some 3) Char.isDigit)
    (.seq (.opt isDashDotSpace) (.seq (.opt (· = '('))
      (.seq (.reps 1 (some 4) Char.isDigit) (.seq (.opt (· = ')'))
        (.seq (.opt isDashDotSpace) (.seq (.reps 1 (some 4) Char.isDigit)
          (.seq (.opt isDashDotSpace) (.seq (.reps 1 (some 4) Char.isDigit)
            (.seq (.opt isDashDotSpace) (.reps 1 (some 4) Char.isDigit)))))))))))

/-- Phone pattern 2: `\(\d{3}\)\s?\d{3}[-.\s]?\d{4}`. -/
def PHONE_PATTERN2 : Re :=
  .seq (.cls (· = '(')) (.seq (.exactly 3 Char.isDigit)
    (.seq (.cls (· = ')')) (.seq (.opt isSpaceChar)
      (.seq (.exactly 3 Char.isDigit) (.seq (.opt isDashDotSpace)
        (.exactly 4 Char.isDigit))))))

/-- Phone pattern 3: `\b\d{3}[-.\s]\d{3}[-.\s]\d{4}\b`. -/
def PHONE_PATTERN3 : Re :=
  .seq .bnd (.seq (.exactly 3 Char.isDigit) (.seq (.cls isDashDotSpace)
    (.seq (.exactly 3 Char.isDigit) (.seq (.cls isDashDotSpace)
      (.seq (.exactly 4 Char.isDigit) .bnd)))))

/-- Phone pattern 4: `\b\d{10,15}\b`. -/
def PHONE_PATTERN4 : Re :=
  .seq .bnd (.seq (.reps 10 (some 15) Char.isDigit) .bnd)

/-- `PhoneDetector.PHONE_PATTERNS`, in source order. -/
def PHONE_PATTERNS : List Re :=
  [PHONE_PATTERN1, PHONE_PATTERN2, PHONE_PATTERN3, PHONE_PATTERN4]

/-- Stable insertion of `a` into `l`: `a` goes in front of the first element
it is `le`-before (equal elements keep their original order). -/
def stableInsert {α : Type} (le : α → α → Bool) (a : α) : List α → List α
  | [] => [a]
  | b :: rest => if le a b then a :: b :: rest else b :: stableInsert le a rest

/-- Python's `list.sort` is a stable sort; a stable sort by a total preorder
is uniquely determined, so a stable insertion sort models it exactly (and,
unlike a well-founded merge sort, evaluates inside the kernel). -/
def insertionSort {α : Type} (le : α → α → Bool) : List α → List α
  | [] => []
  | a :: rest => stableInsert le a (insertionSort le rest)

/-- The comparison realising Python's stable sort by key
`(start_pos, -(end_pos - start_pos))` in `PhoneDetector.detect`. -/
def phoneMatchLe (a b : (Nat × Nat) × List Char) : Bool :=
  a.1.1 < b.1.1 || (a.1.1 = b.1.1 && b.1.2 - b.1.1 ≤ a.1.2 - a.1.1)

/-- The greedy overlap-resolution loop of `PhoneDetector.detect`: keep a match
iff its span overlaps no already-kept span (`used`). -/
def resolveOverlapsAux : List ((Nat × Nat) × List Char) → List (Nat × Nat) →
    List ((Nat × Nat) × List Char)
  | [], _ => []
  | m :: rest, used =>
    if used.all (fun u => decide (m.1.2 ≤ u.1) || decide (u.2 ≤ m.1.1)) then
      m :: resolveOverlapsAux rest (used ++ [m.1])
    else
      resolveOverlapsAux rest used

/-- `PhoneDetector.detect`: pool all matches of the four patterns, keep those
with 10–15 digits, sort by `(start, -(length))`, greedily drop overlaps, and
re-sort the surviving results by start position. -/
def phoneDetect (text : String) : List DetectionResult :=
  let all_matches := PHONE_PATTERNS.flatMap fun pat =>
    (pat.scan text.data).filterMap fun p =>
      let phone := extractSpan text.data p.1 p.2
      let digit_count := (phone.filter Char.isDigit).length
      if digit_count < 10 || 15 < digit_count then none
      else some (p, phone)
  let sorted := insertionSort phoneMatchLe all_matches
  let kept := resolveOverlapsAux sorted []
  let results := kept.map fun m =>
    ({ pii_type := .phone
       original_value := String.mk m.2
       confidence := 1
       start_pos := (m.1.1 : Int)
       end_pos := (m.1.2 : Int) } : DetectionResult)
  insertionSort (fun a b => decide (a.start_pos ≤ b.start_pos)) results

/-- `CARD_PATTERN` from `credit_card_detector.py`:
`\b(?:\d{4}[\s\-]?\d{4}[\s\-]?\d{4}[\s\-]?\d{3,7}|\d{4}[\s\-]?\d{6}[\s\-]?\d{5})\b`. -/
def CARD_ALT1 : Re :=
  .seq (.exactly 4 Char.isDigit) (.seq (.opt isSepChar)
    (.seq (.exactly 4 Char.isDigit) (.seq (.opt isSepChar)
      (.seq (.exactly 4 Char.isDigit) (.seq (.opt isSepChar)
        (.reps 3 (some 7) Char.isDigit))))))

/-- The Amex-style alternative `\d{4}[\s\-]?\d{6}[\s\-]?\d{5}`. -/
def CARD_ALT2 : Re :=
  .seq (.exactly 4 Char.isDigit) (.seq (.opt isSepChar)
    (.seq (.exactly 6 Char.isDigit) (.seq (.opt isSepChar)
      (.exactly 5 Char.isDigit))))

/-- The full compiled credit-card pattern. -/
def CARD_PATTERN : Re :=
  .seq .bnd (.seq (.alt CARD_ALT1 CARD_ALT2) .bnd)

/-- One step of the Luhn transform: digits at odd reversed index are doubled,
subtracting 9 when the double exceeds 9. -/
def luhnDouble (d : Nat) : Nat :=
  if d * 2 > 9 then d * 2 - 9 else d * 2

/-- `CreditCardDetector._luhn_check` on the character list of the card
number: fail unless nonempty all-digits (Python `str.isdigit`), then reverse,
double every second digit from the right, sum, and test mod 10. -/
def luhnCheck (card : List Char) : Bool :=
  (!card.isEmpty && card.all Char.isDigit) &&
    ((card.reverse.map (fun c => c.toNat - '0'.toNat)).enum.map
      (fun p => if p.1 % 2 = 1 then luhnDouble p.2 else p.2)).sum % 10 = 0

/-- `CreditCardDetector.detect`: regex candidates, separator stripping,
length gate 13–19, Luhn gate, confidence 1.0. -/
def ccDetect (text : String) : List DetectionResult :=
  (CARD_PATTERN.scan text.data).filterMap fun p =>
    let card := extractSpan text.data p.1 p.2
    let digits_only := card.filter fun c => !isSepChar c
    if digits_only.length < 13 || 19 < digits_only.length then none
    else if luhnCheck digits_only then
      some { pii_type := .creditCard
             original_value := String.mk card
             confidence := 1
             start_pos := (p.1 : Int)
             end_pos := (p.2 : Int) }
    else none

/-- ASCII model of Python `str.lower()`. -/
def pyLower (s : String) : String :=
  String.mk (s.data.map Char.toLower)

/-- ASCII model of Python `str.upper()`. -/
def pyUpper (s : String) : String :=
  String.mk (s.data.map Char.toUpper)

/-- ASCII model of Python `str.isupper()`: at least one cased character and
no lowercase one. -/
def pyIsUpper (s : String) : Bool :=
  s.data.any Char.isAlpha && s.data.all fun c => !c.isLower

/-- ASCII model of Python `str.islower()`: at least one cased character and
no uppercase one. -/
def pyIsLower (s : String) : Bool :=
  s.data.any Char.isAlpha && s.data.all fun c => !c.isUpper

/-- ASCII model of Python `str.isdigit()`: nonempty and all digits. -/
def pyIsDigit (s : String) : Bool :=
  !s.data.isEmpty && s.data.all Char.isDigit

/-- Python `c in s` for a single character. -/
def strContains (s : String) (c : Char) : Bool :=
  s.data.contains c

/-- `re.sub(r"\D", "", s)`: the digit characters of `s`. -/
def digitsOf (s : String) : List Char :=
  s.data.filter Char.isDigit

/-- Helper for `pySplit`: split on whitespace runs, discarding empties
(`acc` is the reversed current word). -/
def pySplitAux : List Char → List Char → List String
  | [], acc => if acc.isEmpty then [] else [String.mk acc.reverse]
  | c :: rest, acc =>
    if isSpaceChar c then
      if acc.isEmpty then pySplitAux rest []
      else String.mk acc.reverse :: pySplitAux rest []
    else
      pySplitAux rest (c :: acc)

/-- ASCII model of Python `str.split()` with no argument. -/
def pySplit (s : String) : List String :=
  pySplitAux s.data []

/-- The external Faker library, modelled as abstract per-method value
streams; the `Nat` argument is the position in the underlying seeded RNG
stream (`Replacer.ctr`), so each call yields the stream's next value. -/
structure FakerGen where
  email : Nat → String
  phoneNumber : Nat → String
  firstName : Nat → String
  lastName : Nat → String
  personName : Nat → String
  creditCardNumber : Nat → String

/-- Association-list lookup mirroring a Python `dict` that is only ever
populated by insert-if-absent. -/
def alookup {α β : Type} [DecidableEq α] (k : α) : List (α × β) → Option β
  | [] => none
  | (k', v) :: rest => if k' = k then some v else alookup k rest

/-- The `Replacer` state from `replacer.py`: the Faker handle with its draw
counter, the primary consistency cache `(original, pii_type) → fake`, and
the two shared cross-field name maps. -/
structure Replacer where
  faker : FakerGen
  ctr : Nat
  cache : List ((String × PIIType) × String) := []
  first_name_map : List (String × String) := []
  last_name_map : List (String × String) := []

/-- One call into the Faker library: take the stream's current value and
advance the RNG position. -/
def Replacer.draw (rep : Replacer) (f : FakerGen → Nat → String) : String × Replacer :=
  (f rep.faker rep.ctr, { rep with ctr := rep.ctr + 1 })

/-- `Replacer._preserve_case`: three-way case-pattern preservation. -/
def preserveCase (original fake : String) : String :=
  if pyIsUpper original then pyUpper fake
  else if pyIsLower original then pyLower fake
  else fake

/-- `Replacer._generate_phone`: draw a fake phone, then mimic the separator
style of the original (international, parenthesised, dashed, bare digits,
else the fake unchanged). -/
def generatePhone (original : String) (rep : Replacer) : String × Replacer :=
  let d := rep.draw FakerGen.phoneNumber
  let fake_phone := d.1
  if strContains original '+' && strContains original '-' then
    (fake_phone, d.2)
  else if strContains original '(' && strContains original ')' then
    let digits := digitsOf fake_phone
    if 10 ≤ digits.length then
      (String.mk ('(' :: digits.take 3 ++ ')' :: ' ' :: (digits.drop 3).take 3
        ++ '-' :: (digits.drop 6).take 4), d.2)
    else (fake_phone, d.2)
  else if strContains original '-' then
    let digits := digitsOf fake_phone
    if 10 ≤ digits.length then
      (String.mk (digits.take 3 ++ '-' :: (digits.drop 3).take 3
        ++ '-' :: (digits.drop 6).take 4), d.2)
    else (fake_phone, d.2)
  else if pyIsDigit original then
    (String.mk ((digitsOf fake_phone).take original.length), d.2)
  else
    (fake_phone, d.2)

/-- `Replacer._generate_full_name`: for a two-or-more-word name, resolve or
create the first-token and last-token entries in the shared name maps (in
the source's branch order and Faker call order), join with a space and
preserve case; a single-word name draws `faker.name()` directly. -/
def generateFullName (original : String) (rep : Replacer) : String × Replacer :=
  let words := pySplit original
  if 2 ≤ words.length then
    let first_normalized := pyLower words[0]!
    let last_normalized := pyLower (words.getLast!)
    match alookup first_normalized rep.first_name_map,
          alookup last_normalized rep.last_name_map with
    | some fake_first, some fake_last =>
      (preserveCase original (fake_first ++ " " ++ fake_last), rep)
    | some fake_first, none =>
      let d := rep.draw FakerGen.lastName
      let rep' := { d.2 with last_name_map := (last_normalized, d.1) :: d.2.last_name_map }
      (preserveCase original (fake_first ++ " " ++ d.1), rep')
    | none, some fake_last =>
      let d := rep.draw FakerGen.firstName
      let rep' := { d.2 with first_name_map := (first_normalized, d.1) :: d.2.first_name_map }
      (preserveCase original (d.1 ++ " " ++ fake_last), rep')
    | none, none =>
      let d1 := rep.draw FakerGen.firstName
      let d2 := d1.2.draw FakerGen.lastName
      let rep' := { d2.2 with
        first_name_map := (first_normalized, d1.1) :: d2.2.first_name_map
        last_name_map := (last_normalized, d2.1) :: d2.2.last_name_map }
      (preserveCase original (d1.1 ++ " " ++ d2.1), rep')
  else
    let d := rep.draw FakerGen.personName
    (preserveCase original d.1, d.2)

/-- `Replacer._generate_first_name`: case-insensitive lookup-or-create in
the shared first-name map, then case preservation. -/
def generateFirstName (original : String) (rep : Replacer) : String × Replacer :=
  let normalized := pyLower original
  match alookup normalized rep.first_name_map with
  | some fake_name => (preserveCase original fake_name, rep)
  | none =>
    let d := rep.draw FakerGen.firstName
    let rep' := { d.2 with first_name_map := (normalized, d.1) :: d.2.first_name_map }
    (preserveCase original d.1, rep')

/-- `Replacer._generate_last_name`: the last-name analogue. -/
def generateLastName (original : String) (rep : Replacer) : String × Replacer :=
  let normalized := pyLower original
  match alookup normalized rep.last_name_map with
  | some fake_name => (preserveCase original fake_name, rep)
  | none =>
    let d := rep.draw FakerGen.lastName
    let rep' := { d.2 with last_name_map := (normalized, d.1) :: d.2.last_name_map }
    (preserveCase original d.1, rep')

/-- The per-type generator dispatch (the `if`/`elif` chain of
`get_or_create_replacement`).  `PIIType` is a closed enumeration, so the
source's `"[REDACTED]"` fallback branch for unknown types is unreachable. -/
def generateFor (rep : Replacer) (original : String) : PIIType → String × Replacer
  | .email => rep.draw FakerGen.email
  | .phone => generatePhone original rep
  | .fullName => generateFullName original rep
  | .firstName => generateFirstName original rep
  | .lastName => generateLastName original rep
  | .creditCard => rep.draw FakerGen.creditCardNumber

/-- `Replacer.get_or_create_replacement`: consult the primary cache; on a
miss dispatch to the per-type generator, record the result under
`(original, pii_type)`, and return it. -/
def getOrCreate (rep : Replacer) (original : String) (pii_type : PIIType) : String × Replacer :=
  match alookup (original, pii_type) rep.cache with
  | some fake_value => (fake_value, rep)
  | none =>
    let g := generateFor rep original pii_type
    (g.1, { g.2 with cache := ((original, pii_type), g.1) :: g.2.cache })

/-- `Replacer.replace`: delegate to `get_or_create_replacement` on the
detection's original value and type. -/
def Replacer.replace (rep : Replacer) (detection : DetectionResult) : String × Replacer :=
  getOrCreate rep detection.original_value detection.pii_type

/-- A concrete Faker instantiation (constant streams of realistic values),
used to evaluate the embedding at concrete inputs. -/
def cexFaker : FakerGen where
  email _ := "kim42@demo.org"
  phoneNumber _ := "555-123-4567"
  firstName _ := "Michael"
  lastName _ := "Smith"
  personName _ := "Michael Smith"
  creditCardNumber _ := "4242424242424242"


/-- `SanitizationResult` from `models.py`. -/
structure SanitizationResult where
  success : Bool
  records_processed : Nat
  pii_fields_detected : Nat
  pii_replacements_made : Nat
  error_message : Option String := none
deriving DecidableEq

/-- A detector, as the `Sanitizer` consumes it: `detect(text, field_name)`. -/
def DetectorFn : Type :=
  String → String → List DetectionResult

/-- The mutable state of one `Sanitizer`: its replacer and the two per-run
counters. -/
structure SanitizerState where
  replacer : Replacer
  pii_fields_detected : Nat := 0
  pii_replacements_made : Nat := 0

/-- `sanitized_text[:start] + fake + sanitized_text[end:]` (Python slices
clamp out-of-range indices, as `take`/`drop` do). -/
def spliceAt (s : String) (a b : Nat) (rep : String) : String :=
  String.mk (s.data.take a ++ rep.data ++ s.data.drop b)

/-- Python `s.replace(old, new, 1)`: replace the first occurrence of `old`
(matching Python, an empty `old` matches at the front). -/
def pyReplaceOnce (s old new : List Char) : List Char :=
  if old.isPrefixOf s then new ++ s.drop old.length
  else
    match s with
    | [] => []
    | c :: rest => c :: pyReplaceOnce rest old new

/-- `Sanitizer._sanitize_string`: pool the detections of all detectors; if
none, return the text unchanged; otherwise bump the fields counter once,
sort the detections by `start_pos` descending (Python's stable
`reverse=True` sort), and replace each one right-to-left — by span splice
when `start_pos >= 0 and end_pos > start_pos`, else by a first-occurrence
substring replace — bumping the replacements counter per detection. -/
def sanitizeString (dets : List DetectorFn) (st : SanitizerState) (text field_name : String) :
    String × SanitizerState :=
  let all_detections := dets.flatMap fun det => det text field_name
  if all_detections.isEmpty then (text, st)
  else
    let st := { st with pii_fields_detected := st.pii_fields_detected + 1 }
    let sorted := insertionSort (fun a b => decide (b.start_pos ≤ a.start_pos)) all_detections
    sorted.foldl
      (fun acc detection =>
        let (fake_value, rep) := acc.2.replacer.replace detection
        let newText :=
          if 0 ≤ detection.start_pos ∧ detection.start_pos < detection.end_pos then
            spliceAt acc.1 detection.start_pos.toNat detection.end_pos.toNat fake_value
          else
            String.mk (pyReplaceOnce acc.1.data detection.original_value.data fake_value.data)
        (newText, { acc.2 with
          replacer := rep
          pii_replacements_made := acc.2.pii_replacements_made + 1 }))
      (text, st)

/-- A JSON value as `sanitize_value` dispatches on it: string, number,
boolean, null, array, or key-ordered object. -/
inductive JValue where
  | str (s : String)
  | num (q : ℚ)
  | bool (b : Bool)
  | null
  | arr (items : List JValue)
  | obj (fields : List (String × JValue))

mutual

/-- `Sanitizer.sanitize_value`: strings go through string sanitization with
the field name as context; dicts recurse per key; lists recurse sharing the
containing field's name; primitives pass through unchanged. -/
def sanitizeValue (dets : List DetectorFn) (st : SanitizerState) (value : JValue)
    (field_name : String) : JValue × SanitizerState :=
  match value with
  | .str s =>
    let (t, st) := sanitizeString dets st s field_name
    (.str t, st)
  | .obj fields =>
    let (fs, st) := sanitizeFields dets st fields
    (.obj fs, st)
  | .arr items =>
    let (xs, st) := sanitizeItems dets st items field_name
    (.arr xs, st)
  | .num q => (.num q, st)
  | .bool b => (.bool b, st)
  | .null => (.null, st)

/-- List elements, all sanitized under the containing field's name. -/
def sanitizeItems (dets : List DetectorFn) (st : SanitizerState) (items : List JValue)
    (field_name : String) : List JValue × SanitizerState :=
  match items with
  | [] => ([], st)
  | v :: rest =>
    let (v', st) := sanitizeValue dets st v field_name
    let (rest', st) := sanitizeItems dets st rest field_name
    (v' :: rest', st)

/-- Mapping fields, each value sanitized under its own key. -/
def sanitizeFields (dets : List DetectorFn) (st : SanitizerState)
    (fields : List (String × JValue)) : List (String × JValue) × SanitizerState :=
  match fields with
  | [] => ([], st)
  | (k, v) :: rest =>
    let (v', st) := sanitizeValue dets st v k
    let (rest', st) := sanitizeFields dets st rest
    ((k, v') :: rest', st)

end

/-- `Sanitizer.sanitize_records`: each record is a key-ordered mapping whose
values are sanitized under their keys. -/
def sanitizeRecords (dets : List DetectorFn) (st : SanitizerState)
    (records : List (List (String × JValue))) :
    List (List (String × JValue)) × SanitizerState :=
  match records with
  | [] => ([], st)
  | record :: rest =>
    let (r', st) := sanitizeFields dets st record
    let (rest', st) := sanitizeRecords dets st rest
    (r' :: rest', st)

/-- The run-level failure taxonomy of `sanitize_file`, with the variable
parts of each exception's f-string message as payload (`exceptions.py`
renders `JSONParseError` as `"{message} at line {line}, column {column}"`). -/
inductive RunFailure where
  | inputNotFound (path : String)
  | inputNotAFile (path : String)
  | invalidJson (cause : String) (line col : Int)
  | rootNotArray
  | readPermissionDenied (path : String)
  | readOther (cause path : String)
  | writePermissionDenied (path : String)
  | writeOs (cause path : String)
  | writeOther (cause path : String)
  | unexpected (cause : String)

/-- `str(e)` for each failure, following the f-strings in `sanitizer.py`
and `exceptions.py`. -/
def RunFailure.message : RunFailure → String
  | .inputNotFound path => "Input file not found: " ++ path
  | .inputNotAFile path => "Input path is not a file: " ++ path
  | .invalidJson cause line col =>
    "Invalid JSON: " ++ cause ++ " at line " ++ toString line ++ ", column " ++ toString col
  | .rootNotArray => "JSON root must be an array at line 1, column 1"
  | .readPermissionDenied path => "Permission denied reading file: " ++ path
  | .readOther cause _ => "Error reading file: " ++ cause
  | .writePermissionDenied path => "Permission denied writing to: " ++ path
  | .writeOs cause _ => "Error writing output file: " ++ cause
  | .writeOther cause _ => "Unexpected error writing output: " ++ cause
  | .unexpected cause => "Unexpected error during sanitization: " ++ cause

/-- Outcome of `_write_json_file`. The source first runs
`output_path.parent.mkdir(...)` and `open(output_path, "w")` — if either
raises, no output file content is produced (`openFail`). Otherwise
`open("w")` has truncated the file and `json.dump` streams the serialized
text into it; a failure mid-dump (`dumpFail`) leaves the `flushed`-character
prefix already written on disk. `ok` means the dump completed. -/
inductive WriteOutcome where
  | ok
  | openFail (e : RunFailure)
  | dumpFail (e : RunFailure) (flushed : Nat)

/-- `Sanitizer.sanitize_file` with the file system abstracted: `readRes` is
the outcome of `_read_json_file` (or an unexpected mid-run exception),
`dump` the serialization performed by `json.dump(data, f, indent=2,
ensure_ascii=False)` (abstract, like `FakerGen` for Faker), and `writeRes`
the outcome of the open-then-stream write in `_write_json_file`. Counters are
reset at entry; any caught failure yields a zeroed failed result. The
second component is the content this run leaves at the output path:
`none` if the file was never opened, `some s` for the (possibly partial)
text streamed before returning or failing. -/
def sanitizeFileModel (dets : List DetectorFn) (rep : Replacer)
    (dump : List (List (String × JValue)) → String)
    (readRes : Except RunFailure (List (List (String × JValue))))
    (writeRes : WriteOutcome) : SanitizationResult × Option String :=
  match readRes with
  | .error e =>
    ({ success := false, records_processed := 0, pii_fields_detected := 0,
       pii_replacements_made := 0, error_message := some e.message }, none)
  | .ok records =>
    let st0 : SanitizerState := { replacer := rep }
    let st' := (sanitizeRecords dets st0 records).2
    let serialized := dump (sanitizeRecords dets st0 records).1
    match writeRes with
    | .openFail e =>
      ({ success := false, records_processed := 0, pii_fields_detected := 0,
         pii_replacements_made := 0, error_message := some e.message }, none)
    | .dumpFail e flushed =>
      ({ success := false, records_processed := 0, pii_fields_detected := 0,
         pii_replacements_made := 0, error_message := some e.message },
       some (serialized.take flushed))
    | .ok =>
      ({ success := true, records_processed := records.length,
         pii_fields_detected := st'.pii_fields_detected,
         pii_replacements_made := st'.pii_replacements_made,
         error_message := none }, some serialized)

mutual

/-- A JSON value with no string leaf (container keys are not leaves). -/
def JValue.stringFree : JValue → Bool
  | .str _ => false
  | .num _ => true
  | .bool _ => true
  | .null => true
  | .arr items => stringFreeItems items
  | .obj fields => stringFreeFields fields

/-- All array elements string-free. -/
def stringFreeItems : List JValue → Bool
  | [] => true
  | v :: rest => v.stringFree && stringFreeItems rest

/-- All object values string-free. -/
def stringFreeFields : List (String × JValue) → Bool
  | [] => true
  | (_, v) :: rest => v.stringFree && stringFreeFields rest

end

theorem draw_cache (rep : Replacer) (f : FakerGen → Nat → String) :
    (rep.draw f).2.cache = rep.cache := rfl

theorem generatePhone_cache (original : String) (rep : Replacer) :
    (generatePhone original rep).2.cache = rep.cache := by
  simp only [generatePhone, Replacer.draw]
  repeat' split
  all_goals rfl

theorem generateFullName_cache (original : String) (rep : Replacer) :
    (generateFullName original rep).2.cache = rep.cache := by
  simp only [generateFullName, Replacer.draw]
  repeat' split
  all_goals rfl

theorem generateFirstName_cache (original : String) (rep : Replacer) :
    (generateFirstName original rep).2.cache = rep.cache := by
  simp only [generateFirstName, Replacer.draw]
  repeat' split
  all_goals rfl

theorem generateLastName_cache (original : String) (rep : Replacer) :
    (generateLastName original rep).2.cache = rep.cache := by
  simp only [generateLastName, Replacer.draw]
  repeat' split
  all_goals rfl

theorem generateFor_cache (rep : Replacer) (original : String) (t : PIIType) :
    (generateFor rep original t).2.cache = rep.cache := by
  cases t <;>
    simp [generateFor, draw_cache, generatePhone_cache, generateFullName_cache,
      generateFirstName_cache, generateLastName_cache]

theorem alookup_cons {α β : Type} [DecidableEq α] (k k' : α) (v : β) (l : List (α × β)) :
    alookup k ((k', v) :: l) = if k' = k then some v else alookup k l := rfl

theorem getOrCreate_hit {rep : Replacer} {v s : String} {t : PIIType}
    (h : alookup (v, t) rep.cache = some s) :
    getOrCreate rep v t = (s, rep) := by
  unfold getOrCreate
  rw [h]

theorem getOrCreate_stores (rep : Replacer) (v : String) (t : PIIType) :
    alookup (v, t) ((getOrCreate rep v t).2).cache = some (getOrCreate rep v t).1 := by
  unfold getOrCreate
  cases h : alookup (v, t) rep.cache with
  | some s => simpa using h
  | none => simp [alookup_cons]

theorem getOrCreate_cache_mono {rep : Replacer} {k : String × PIIType} {s v : String}
    {t : PIIType} (h : alookup k rep.cache = some s) :
    alookup k ((getOrCreate rep v t).2).cache = some s := by
  unfold getOrCreate
  cases hv : alookup (v, t) rep.cache with
  | some s' => simpa using h
  | none =>
    by_cases hk : (v, t) = k
    · subst hk
      rw [hv] at h
      exact absurd h (by simp)
    · simp [alookup_cons, hk, generateFor_cache, h]

/-- One cache operation, as folded over an arbitrary sequence of later
`get_or_create_replacement` calls. -/
def gocStep (rep : Replacer) (p : String × PIIType) : Replacer :=
  (getOrCreate rep p.1 p.2).2

theorem foldl_gocStep_cache_mono {k : String × PIIType} {s : String} :
    ∀ (ops : List (String × PIIType)) (rep : Replacer),
      alookup k rep.cache = some s →
      alookup k (ops.foldl gocStep rep).cache = some s := by
  intro ops
  induction ops with
  | nil => intro rep h; exact h
  | cons p rest ih =>
    intro rep h
    exact ih _ (getOrCreate_cache_mono h)

/-- C1: within one `Replacer`, the first `get_or_create_replacement (v, t)`
call stores its fake value under `(v, t)`; after any sequence of further
calls the entry is unchanged, and a later call with `(v, t)` returns exactly
the stored string (and leaves the state untouched); `replace` on a detection
carrying `(v, t)` is the same operation. -/
theorem claim_C1_cache_idempotent (rep : Replacer) (v : String) (t : PIIType)
    (ops : List (String × PIIType)) (d : DetectionResult)
    (hd : d.original_value = v) (ht : d.pii_type = t) :
    alookup (v, t) ((getOrCreate rep v t).2).cache = some (getOrCreate rep v t).1 ∧
    getOrCreate (ops.foldl gocStep (getOrCreate rep v t).2) v t =
      ((getOrCreate rep v t).1, ops.foldl gocStep (getOrCreate rep v t).2) ∧
    Replacer.replace rep d = getOrCreate rep v t := by
  refine ⟨getOrCreate_stores rep v t, ?_, ?_⟩
  · exact getOrCreate_hit (foldl_gocStep_cache_mono ops _ (getOrCreate_stores rep v t))
  · rw [Replacer.replace, hd, ht]

/-- C1 witness: a concrete two-call run returning the identical string. -/
theorem claim_C1_witness :
    (getOrCreate ([("a@b.cc", PIIType.email)].foldl gocStep
      (getOrCreate { faker := cexFaker, ctr := 0 } "a@b.cc" PIIType.email).2)
      "a@b.cc" PIIType.email).1 = "kim42@demo.org" := by
  have h := (claim_C1_cache_idempotent { faker := cexFaker, ctr := 0 } "a@b.cc" PIIType.email
    [("a@b.cc", PIIType.email)]
    { pii_type := PIIType.email, original_value := "a@b.cc", confidence := 1 } rfl rfl).2.1
  rw [h]
  decide

theorem char_toUpper_not_lower (c : Char) : (Char.toUpper c).isLower = false := by
  simp only [Char.toUpper, Char.isLower]
  have hte : ∀ x : Char, x.toNat = x.val.toBitVec.toNat := fun _ => rfl
  split
  next h =>
    have h32 : (Char.ofNat (c.toNat - 32)).val.toBitVec.toNat = c.toNat - 32 := by
      rw [Char.ofNat, dif_pos (Or.inl (by omega : c.toNat - 32 < 55296))]; rfl
    simp only [ge_iff_le, Bool.and_eq_false_iff, decide_eq_false_iff_not, UInt32.le_def,
      BitVec.le_def]
    left
    show ¬(97 ≤ (Char.ofNat (c.toNat - 32)).val.toBitVec.toNat)
    omega
  next h =>
    rw [hte] at h
    simp only [ge_iff_le, Bool.and_eq_false_iff, decide_eq_false_iff_not, UInt32.le_def,
      BitVec.le_def]
    show ¬(97 ≤ c.val.toBitVec.toNat) ∨ ¬(c.val.toBitVec.toNat ≤ 122)
    omega

theorem char_toLower_not_upper (c : Char) : (Char.toLower c).isUpper = false := by
  simp only [Char.toLower, Char.isUpper]
  have hte : ∀ x : Char, x.toNat = x.val.toBitVec.toNat := fun _ => rfl
  split
  next h =>
    have h32 : (Char.ofNat (c.toNat + 32)).val.toBitVec.toNat = c.toNat + 32 := by
      rw [Char.ofNat, dif_pos (Or.inl (by omega : c.toNat + 32 < 55296))]; rfl
    simp only [ge_iff_le, Bool.and_eq_false_iff, decide_eq_false_iff_not, UInt32.le_def,
      BitVec.le_def]
    right
    show ¬((Char.ofNat (c.toNat + 32)).val.toBitVec.toNat ≤ 90)
    omega
  next h =>
    rw [hte] at h
    simp only [ge_iff_le, Bool.and_eq_false_iff, decide_eq_false_iff_not, UInt32.le_def,
      BitVec.le_def]
    show ¬(65 ≤ c.val.toBitVec.toNat) ∨ ¬(c.val.toBitVec.toNat ≤ 90)
    omega

theorem pyUpper_all_not_lower (s : String) :
    (pyUpper s).data.all (fun c => !c.isLower) = true := by
  simp only [pyUpper, List.all_eq_true, List.mem_map]
  rintro c ⟨c', _, rfl⟩
  simp [char_toUpper_not_lower]

theorem pyLower_all_not_upper (s : String) :
    (pyLower s).data.all (fun c => !c.isUpper) = true := by
  simp only [pyLower, List.all_eq_true, List.mem_map]
  rintro c ⟨c', _, rfl⟩
  simp [char_toLower_not_upper]

theorem pyIsUpper_false_of_pyIsLower {s : String} (h : pyIsLower s = true) :
    pyIsUpper s = false := by
  simp only [pyIsLower, Bool.and_eq_true, List.any_eq_true, List.all_eq_true] at h
  obtain ⟨⟨c, hc, halpha⟩, hall⟩ := h
  have hnu : c.isUpper = false := by simpa using hall c hc
  have hlow : c.isLower = true := by
    have : c.isAlpha = (c.isUpper || c.isLower) := rfl
    rw [this, hnu] at halpha
    simpa using halpha
  simp only [pyIsUpper, Bool.and_eq_false_iff]
  right
  simp only [List.all_eq_false]
  exact ⟨c, hc, by simp [hlow]⟩

theorem generateFirstName_shape (original : String) (rep : Replacer) :
    ∃ f, (generateFirstName original rep).1 = preserveCase original f := by
  simp only [generateFirstName]
  repeat' split
  all_goals exact ⟨_, rfl⟩

theorem generateLastName_shape (original : String) (rep : Replacer) :
    ∃ f, (generateLastName original rep).1 = preserveCase original f := by
  simp only [generateLastName]
  repeat' split
  all_goals exact ⟨_, rfl⟩

theorem generateFullName_shape (original : String) (rep : Replacer) :
    ∃ f, (generateFullName original rep).1 = preserveCase original f := by
  simp only [generateFullName]
  repeat' split
  all_goals exact ⟨_, rfl⟩

/-- C7: every name generator returns `preserve_case(original, fake)`, and
`preserve_case` uppercases the fake (leaving no lowercase letter) when the
original is entirely uppercase, lowercases it (leaving no uppercase letter)
when the original is entirely lowercase, and otherwise returns the fake in
its generated casing unchanged. -/
theorem claim_C7_case_preservation (original fake : String) (rep : Replacer) :
    (pyIsUpper original = true →
      preserveCase original fake = pyUpper fake ∧
      (preserveCase original fake).data.all (fun c => !c.isLower) = true) ∧
    (pyIsLower original = true →
      preserveCase original fake = pyLower fake ∧
      (preserveCase original fake).data.all (fun c => !c.isUpper) = true) ∧
    (pyIsUpper original = false → pyIsLower original = false →
      preserveCase original fake = fake) ∧
    (∃ f, (generateFirstName original rep).1 = preserveCase original f) ∧
    (∃ f, (generateLastName original rep).1 = preserveCase original f) ∧
    (∃ f, (generateFullName original rep).1 = preserveCase original f) := by
  refine ⟨?_, ?_, ?_, generateFirstName_shape original rep,
    generateLastName_shape original rep, generateFullName_shape original rep⟩
  · intro hu
    rw [preserveCase, if_pos hu]
    exact ⟨rfl, pyUpper_all_not_lower fake⟩
  · intro hl
    rw [preserveCase, if_neg (by simp [pyIsUpper_false_of_pyIsLower hl]), if_pos hl]
    exact ⟨rfl, pyLower_all_not_upper fake⟩
  · intro hu hl
    rw [preserveCase, if_neg (by simp [hu]), if_neg (by simp [hl])]

/-- C7 witness: `preserve_case` at the three concrete case patterns. -/
theorem claim_C7_witness :
    preserveCase "JOHN" "Smith" = "SMITH" ∧
    preserveCase "john" "Smith" = "smith" ∧
    preserveCase "jOhn" "Smith" = "Smith" := by
  refine ⟨?_, ?_, ?_⟩
  · have h := (claim_C7_case_preservation "JOHN" "Smith" { faker := cexFaker, ctr := 0 }).1
      (by decide)
    rw [h.1]; decide
  · have h := (claim_C7_case_preservation "john" "Smith" { faker := cexFaker, ctr := 0 }).2.1
      (by decide)
    rw [h.1]; decide
  · exact (claim_C7_case_preservation "jOhn" "Smith" { faker := cexFaker, ctr := 0 }).2.2.1
      (by decide) (by decide)

theorem not_contains_of_all_digit {l : List Char} {c : Char}
    (h : l.all Char.isDigit = true) (hc : c.isDigit = false) :
    l.contains c = false := by
  cases hcon : l.contains c with
  | false => rfl
  | true =>
    have hmem : c ∈ l := by simpa using hcon
    have := List.all_eq_true.mp h c hmem
    rw [hc] at this
    cases this

theorem getOrCreate_miss {rep : Replacer} {v : String} {t : PIIType}
    (h : alookup (v, t) rep.cache = none) :
    getOrCreate rep v t =
      ((generateFor rep v t).1,
       { (generateFor rep v t).2 with
         cache := ((v, t), (generateFor rep v t).1) :: (generateFor rep v t).2.cache }) := by
  unfold getOrCreate
  rw [h]

/-- C8 (amended): on a cache miss for an all-digit original, the phone
replacement is the fake's digit string truncated to the original's length —
all digits, of length `min (length original) (number of digits of the drawn
fake)`; the source never pads, so the length equals the original's only when
the fake supplies at least that many digits. -/
theorem claim_C8_amended (rep : Replacer) (original : String)
    (hmiss : alookup (original, PIIType.phone) rep.cache = none)
    (hne : original.data.isEmpty = false)
    (hdig : original.data.all Char.isDigit = true) :
    ((getOrCreate rep original PIIType.phone).1).data.all Char.isDigit = true ∧
    ((getOrCreate rep original PIIType.phone).1).length =
      min original.length (digitsOf (rep.faker.phoneNumber rep.ctr)).length := by
  rw [getOrCreate_miss hmiss]
  have hplus : strContains original '+' = false :=
    not_contains_of_all_digit hdig (by decide)
  have hminus : strContains original '-' = false :=
    not_contains_of_all_digit hdig (by decide)
  have hlpar : strContains original '(' = false :=
    not_contains_of_all_digit hdig (by decide)
  have hpd : pyIsDigit original = true := by
    simp [pyIsDigit, hne, hdig]
  simp only [generateFor, generatePhone, Replacer.draw, hplus, hminus, hlpar, hpd,
    Bool.false_and, Bool.and_false, if_true, if_false, Bool.false_eq_true]
  constructor
  · simp only [List.all_eq_true]
    intro c hc
    have hc' : c ∈ digitsOf (rep.faker.phoneNumber rep.ctr) := List.mem_of_mem_take hc
    exact (List.mem_filter.mp hc').2
  · show (List.take original.length (digitsOf (rep.faker.phoneNumber rep.ctr))).length = _
    rw [List.length_take]

/-- C8 witness: the amended claim at a concrete replacer and original. -/
theorem claim_C8_amended_witness :
    ((getOrCreate { faker := cexFaker, ctr := 0 } "12345" PIIType.phone).1).data.all
      Char.isDigit = true ∧
    ((getOrCreate { faker := cexFaker, ctr := 0 } "12345" PIIType.phone).1).length =
      min ("12345" : String).length (digitsOf (cexFaker.phoneNumber 0)).length :=
  claim_C8_amended { faker := cexFaker, ctr := 0 } "12345" rfl (by decide) (by decide)

/-- C8 counterexample: for the 15-digit original `"123456789012345"` and a
drawn fake with 10 digits, the replacement has length 10, not 15 — the
returned length does not equal the original's length, refuting the claim as
stated. -/
theorem claim_C8_counterexample :
    ((getOrCreate { faker := cexFaker, ctr := 0 } "123456789012345" PIIType.phone).1).length ≠
      ("123456789012345" : String).length := by
  decide

/-- All records of a batch are free of string leaves. -/
def stringFreeRecords : List (List (String × JValue)) → Bool
  | [] => true
  | r :: rest => stringFreeFields r && stringFreeRecords rest

theorem sizeOf_pos_jvalue (v : JValue) : 0 < sizeOf v := by
  cases v <;> simp_arith

theorem sanitize_stringFree_aux (dets : List DetectorFn) :
    ∀ n : Nat,
      (∀ v : JValue, sizeOf v ≤ n → v.stringFree = true →
        ∀ st fn, sanitizeValue dets st v fn = (v, st)) ∧
      (∀ items : List JValue, sizeOf items ≤ n → stringFreeItems items = true →
        ∀ st fn, sanitizeItems dets st items fn = (items, st)) ∧
      (∀ fields : List (String × JValue), sizeOf fields ≤ n →
        stringFreeFields fields = true →
        ∀ st, sanitizeFields dets st fields = (fields, st)) := by
  intro n
  induction n with
  | zero =>
    refine ⟨fun v hv => absurd hv (by have := sizeOf_pos_jvalue v; omega), ?_, ?_⟩
    · intro items hsz _ st fn
      cases items with
      | nil => simp [sanitizeItems]
      | cons v rest => simp_arith at hsz
    · intro fields hsz _ st
      cases fields with
      | nil => simp [sanitizeFields]
      | cons f rest => simp_arith at hsz
  | succ n ih =>
    refine ⟨?_, ?_, ?_⟩
    · intro v hsz hfree st fn
      cases v with
      | str s => simp [JValue.stringFree] at hfree
      | num q => simp [sanitizeValue]
      | bool b => simp [sanitizeValue]
      | null => simp [sanitizeValue]
      | arr items =>
        have hsz' : sizeOf items ≤ n := by simp_arith at hsz; omega
        have hfree' : stringFreeItems items = true := by
          simpa [JValue.stringFree] using hfree
        simp [sanitizeValue, ih.2.1 items hsz' hfree' st fn]
      | obj fields =>
        have hsz' : sizeOf fields ≤ n := by simp_arith at hsz; omega
        have hfree' : stringFreeFields fields = true := by
          simpa [JValue.stringFree] using hfree
        simp [sanitizeValue, ih.2.2 fields hsz' hfree' st]
    · intro items hsz hfree st fn
      cases items with
      | nil => simp [sanitizeItems]
      | cons v rest =>
        simp_arith at hsz
        simp only [stringFreeItems, Bool.and_eq_true] at hfree
        have h1 := ih.1 v (by omega) hfree.1 st fn
        have h2 := ih.2.1 rest (by omega) hfree.2 st fn
        simp [sanitizeItems, h1, h2]
    · intro fields hsz hfree st
      cases fields with
      | nil => simp [sanitizeFields]
      | cons f rest =>
        obtain ⟨k, v⟩ := f
        simp_arith at hsz
        simp only [stringFreeFields, Bool.and_eq_true] at hfree
        have h1 := ih.1 v (by omega) hfree.1 st k
        have h2 := ih.2.2 rest (by omega) hfree.2 st
        simp [sanitizeFields, h1, h2]

theorem sanitizeRecords_stringFree (dets : List DetectorFn) :
    ∀ (records : List (List (String × JValue))), stringFreeRecords records = true →
      ∀ st, sanitizeRecords dets st records = (records, st) := by
  intro records
  induction records with
  | nil => intro _ st; simp [sanitizeRecords]
  | cons r rest ih =>
    intro hfree st
    simp only [stringFreeRecords, Bool.and_eq_true] at hfree
    have h1 := (sanitize_stringFree_aux dets (sizeOf r)).2.2 r (Nat.le_refl _) hfree.1 st
    simp [sanitizeRecords, h1, ih hfree.2 st]

/-- C5: sanitizing any value whose leaves are all non-strings (and any batch
of such records) returns the input deeply unchanged — same keys, same order,
same container shape — and leaves the sanitizer state untouched. -/
theorem claim_C5_structure_preservation (dets : List DetectorFn) (st : SanitizerState)
    (v : JValue) (fn : String) (records : List (List (String × JValue))) :
    (v.stringFree = true → sanitizeValue dets st v fn = (v, st)) ∧
    (stringFreeRecords records = true → sanitizeRecords dets st records = (records, st)) :=
  ⟨fun h => (sanitize_stringFree_aux dets (sizeOf v)).1 v (Nat.le_refl _) h st fn,
   fun h => sanitizeRecords_stringFree dets records h st⟩

/-- C5 witness: a concrete nested record of non-string leaves round-trips
unchanged. -/
theorem claim_C5_witness :
    sanitizeValue [] { replacer := { faker := cexFaker, ctr := 0 } }
        (.obj [("age", .num 30), ("tags", .arr [.null, .bool true]), ("meta", .obj [])]) "root" =
      ((.obj [("age", .num 30), ("tags", .arr [.null, .bool true]), ("meta", .obj [])]),
        { replacer := { faker := cexFaker, ctr := 0 } }) ∧
    sanitizeRecords [] { replacer := { faker := cexFaker, ctr := 0 } } [[("n", .num 1)], []] =
      ([[("n", .num 1)], []], { replacer := { faker := cexFaker, ctr := 0 } }) := by
  constructor
  · exact (claim_C5_structure_preservation [] _ _ "root" []).1
      (by simp [JValue.stringFree, stringFreeFields, stringFreeItems])
  · exact (claim_C5_structure_preservation [] _ (.null) "" _).2
      (by simp [stringFreeRecords, stringFreeFields, JValue.stringFree])

theorem append_len_ne_zero {a : String} (ha : a.length ≠ 0) (b : String) :
    (a ++ b).length ≠ 0 := by
  rw [String.length_append]
  omega

theorem runFailure_message_len_pos (e : RunFailure) : e.message.length ≠ 0 := by
  cases e <;> simp only [RunFailure.message] <;>
    (repeat' apply append_len_ne_zero) <;> decide

/-- C6 counterexample to "no sanitized output is written" on failure:
`_write_json_file` opens the output with `open(path, "w")` (truncating it)
and then streams `json.dump`; if the dump fails after one character has
been flushed (e.g. `OSError: No space left on device`), the run returns a
failed result — yet a nonempty partial prefix `"["` of the serialized
output persists at the output path. -/
theorem claim_C6_counterexample :
    (sanitizeFileModel [] { faker := cexFaker, ctr := 0 } (fun _ => "[]")
        (.ok []) (.dumpFail (.writeOs "No space left on device" "out.json") 1)).1.success
      = false ∧
    (sanitizeFileModel [] { faker := cexFaker, ctr := 0 } (fun _ => "[]")
        (.ok []) (.dumpFail (.writeOs "No space left on device" "out.json") 1)).2
      = some "[" ∧
    "[" ≠ "" := by
  refine ⟨rfl, ?_, by decide⟩
  decide

/-- C6 (amended): whenever a sanitization run fails — the input read fails
(missing, unreadable, unparseable, or non-array top level), the output
write fails, or an unexpected internal exception is caught — the returned
result has `success = false`, all three counters zero, and a non-empty
`error_message`; no sanitized output is written when the failure happens
before or at opening the output file, but a failure during the streaming
`json.dump` leaves a partial prefix of the serialized sanitized output at
the output path. -/
theorem claim_C6_amended (dets : List DetectorFn) (rep : Replacer)
    (dump : List (List (String × JValue)) → String)
    (readRes : Except RunFailure (List (List (String × JValue))))
    (writeRes : WriteOutcome)
    (hfail : (sanitizeFileModel dets rep dump readRes writeRes).1.success = false) :
    (sanitizeFileModel dets rep dump readRes writeRes).1.records_processed = 0 ∧
    (sanitizeFileModel dets rep dump readRes writeRes).1.pii_fields_detected = 0 ∧
    (sanitizeFileModel dets rep dump readRes writeRes).1.pii_replacements_made = 0 ∧
    (∃ m, (sanitizeFileModel dets rep dump readRes writeRes).1.error_message = some m ∧
      m.length ≠ 0) ∧
    ((sanitizeFileModel dets rep dump readRes writeRes).2 = none ∨
      ∃ records e flushed, readRes = .ok records ∧
        writeRes = WriteOutcome.dumpFail e flushed ∧
        (sanitizeFileModel dets rep dump readRes writeRes).2 =
          some ((dump (sanitizeRecords dets { replacer := rep } records).1).take
            flushed)) := by
  cases readRes with
  | error e =>
    exact ⟨rfl, rfl, rfl, ⟨e.message, rfl, runFailure_message_len_pos e⟩, .inl rfl⟩
  | ok records =>
    cases writeRes with
    | openFail e =>
      exact ⟨rfl, rfl, rfl, ⟨e.message, rfl, runFailure_message_len_pos e⟩, .inl rfl⟩
    | dumpFail e flushed =>
      exact ⟨rfl, rfl, rfl, ⟨e.message, rfl, runFailure_message_len_pos e⟩,
        .inr ⟨records, e, flushed, rfl, rfl, rfl⟩⟩
    | ok =>
      exact absurd hfail (by simp [sanitizeFileModel])

/-- C6 witness: a malformed-input run (`"{invalid"`-style parse failure)
yields a failed, all-zero result with a non-empty message and no output. -/
theorem claim_C6_amended_witness :
    (sanitizeFileModel [] { faker := cexFaker, ctr := 0 } (fun _ => "[]")
        (.error (.invalidJson "Expecting property name enclosed in double quotes" 1 2))
        .ok).1.records_processed = 0 ∧
    (sanitizeFileModel [] { faker := cexFaker, ctr := 0 } (fun _ => "[]")
        (.error (.invalidJson "Expecting property name enclosed in double quotes" 1 2))
        .ok).1.pii_fields_detected = 0 ∧
    (sanitizeFileModel [] { faker := cexFaker, ctr := 0 } (fun _ => "[]")
        (.error (.invalidJson "Expecting property name enclosed in double quotes" 1 2))
        .ok).1.pii_replacements_made = 0 ∧
    (∃ m, (sanitizeFileModel [] { faker := cexFaker, ctr := 0 } (fun _ => "[]")
        (.error (.invalidJson "Expecting property name enclosed in double quotes" 1 2))
        .ok).1.error_message = some m ∧ m.length ≠ 0) ∧
    ((sanitizeFileModel [] { faker := cexFaker, ctr := 0 } (fun _ => "[]")
        (.error (.invalidJson "Expecting property name enclosed in double quotes" 1 2))
        .ok).2 = none ∨
      ∃ records e flushed,
        (.error (.invalidJson "Expecting property name enclosed in double quotes" 1 2) :
            Except RunFailure (List (List (String × JValue)))) = .ok records ∧
        (WriteOutcome.ok : WriteOutcome) = WriteOutcome.dumpFail e flushed ∧
        (sanitizeFileModel [] { faker := cexFaker, ctr := 0 } (fun _ => "[]")
            (.error (.invalidJson "Expecting property name enclosed in double quotes" 1 2))
            .ok).2 =
          some (((fun _ => "[]") (sanitizeRecords []
              { replacer := { faker := cexFaker, ctr := 0 } } records).1).take
            flushed)) :=
  claim_C6_amended [] { faker := cexFaker, ctr := 0 } (fun _ => "[]")
    (.error (.invalidJson "Expecting property name enclosed in double quotes" 1 2))
    .ok rfl

theorem repCandidates_bounds {lo : Nat} {hi : Option Nat} {p : Char → Bool}
    {r : List Char} {k : Nat} (h : k ∈ repCandidates lo hi p r) :
    lo ≤ k ∧ k ≤ (r.takeWhile p).length := by
  simp only [repCandidates] at h
  split at h
  · rcases List.mem_map.mp h with ⟨i, hi', rfl⟩
    rw [List.mem_range] at hi'
    rename_i hle
    constructor
    · omega
    · cases hi with
      | none => simp at hle ⊢
      | some n => simp at hle ⊢
  · simp at h

theorem mem_of_head?_eq {α : Type} {l : List α} {a : α} (h : l.head? = some a) : a ∈ l := by
  cases l with
  | nil => simp at h
  | cons x xs =>
    simp only [List.head?_cons, Option.some.injEq] at h
    simp [h]

theorem Re.run_spec : ∀ (re : Re) {l r l' r' : List Char},
    (l', r') ∈ re.run (l, r) →
    ∃ c : List Char, r = c ++ r' ∧ l' = c.reverse ++ l ∧ (re.nullable = false → c ≠ []) := by
  intro re
  induction re with
  | eps =>
    intro l r l' r' h
    simp only [Re.run, List.mem_singleton, Prod.mk.injEq] at h
    obtain ⟨h1, h2⟩ := h
    subst h1
    subst h2
    exact ⟨[], rfl, rfl, by simp [Re.nullable]⟩
  | cls p =>
    intro l r l' r' h
    cases r with
    | nil => simp [Re.run] at h
    | cons c rs =>
      rw [show Re.run (.cls p) (l, c :: rs) =
        (if p c = true then [(c :: l, rs)] else []) from rfl] at h
      by_cases hp : p c
      · rw [if_pos hp] at h
        simp only [List.mem_singleton, Prod.mk.injEq] at h
        obtain ⟨h1, h2⟩ := h
        subst h1
        subst h2
        exact ⟨[c], rfl, rfl, by simp⟩
      · rw [if_neg hp] at h
        simp at h
  | reps lo hi p =>
    intro l r l' r' h
    simp only [Re.run, List.mem_map] at h
    rcases h with ⟨k, hk, hout⟩
    injection hout with hout1 hout2
    obtain ⟨hlo, hk2⟩ := repCandidates_bounds hk
    have hkr : k ≤ r.length :=
      le_trans hk2 (List.Sublist.length_le (List.takeWhile_sublist p))
    refine ⟨r.take k, ?_, ?_, ?_⟩
    · rw [← hout2]
      exact (List.take_append_drop k r).symm
    · rw [← hout1]
    · intro hn
      simp only [Re.nullable, decide_eq_false_iff_not] at hn
      intro hnil
      rw [List.take_eq_nil_iff] at hnil
      rcases hnil with h0 | hr0
      · omega
      · subst hr0
        simp at hkr
        omega
  | seq a b iha ihb =>
    intro l r l' r' h
    simp only [Re.run, List.mem_flatMap] at h
    rcases h with ⟨⟨lm, rm⟩, hmid, hfin⟩
    obtain ⟨c1, hr1, hl1, hn1⟩ := iha hmid
    obtain ⟨c2, hr2, hl2, hn2⟩ := ihb hfin
    refine ⟨c1 ++ c2, ?_, ?_, ?_⟩
    · rw [hr1, hr2, List.append_assoc]
    · rw [hl2, hl1, List.reverse_append, List.append_assoc]
    · intro hn
      simp only [Re.nullable, Bool.and_eq_false_iff] at hn
      rcases hn with hn | hn
      · have := hn1 hn
        simp [this]
      · have := hn2 hn
        simp [this]
  | alt a b iha ihb =>
    intro l r l' r' h
    simp only [Re.run, List.mem_append] at h
    rcases h with h | h
    · obtain ⟨c, h1, h2, h3⟩ := iha h
      refine ⟨c, h1, h2, fun hn => h3 ?_⟩
      simp only [Re.nullable, Bool.or_eq_false_iff] at hn
      exact hn.1
    · obtain ⟨c, h1, h2, h3⟩ := ihb h
      refine ⟨c, h1, h2, fun hn => h3 ?_⟩
      simp only [Re.nullable, Bool.or_eq_false_iff] at hn
      exact hn.2
  | bnd =>
    intro l r l' r' h
    simp only [Re.run] at h
    split at h
    · simp only [List.mem_singleton, Prod.mk.injEq] at h
      obtain ⟨h1, h2⟩ := h
      subst h1
      subst h2
      exact ⟨[], rfl, rfl, by simp [Re.nullable]⟩
    · simp at h

theorem Re.scanAux_succ (fuel : Nat) (re : Re) (l r : List Char) :
    Re.scanAux (fuel + 1) re l r =
      (match (re.run (l, r)).head? with
      | some (l', r') =>
        if r'.length < r.length then
          (l.length, l.length + (r.length - r'.length)) :: Re.scanAux fuel re l' r'
        else
          match r with
          | [] => [(l.length, l.length)]
          | c :: rest => (l.length, l.length) :: Re.scanAux fuel re (c :: l) rest
      | none =>
        match r with
        | [] => []
        | c :: rest => Re.scanAux fuel re (c :: l) rest) := rfl

theorem Re.scanAux_spec : ∀ (fuel : Nat) (re : Re) (l r : List Char),
    ∀ p ∈ Re.scanAux fuel re l r,
      l.length ≤ p.1 ∧ p.1 ≤ p.2 ∧ p.2 ≤ l.length + r.length ∧
      (re.nullable = false → p.1 < p.2) := by
  intro fuel
  induction fuel with
  | zero => intro re l r p hp; simp [Re.scanAux] at hp
  | succ fuel ih =>
    intro re l r p hp
    rw [Re.scanAux_succ] at hp
    split at hp
    next l' r' hm =>
      obtain ⟨c, hc1, hc2, hc3⟩ := Re.run_spec re (mem_of_head?_eq hm)
      have hlen : r.length = c.length + r'.length := by rw [hc1]; simp
      have hllen : l'.length = c.length + l.length := by rw [hc2]; simp
      by_cases hlt : r'.length < r.length
      · rw [if_pos hlt] at hp
        rcases List.mem_cons.mp hp with rfl | hp'
        · refine ⟨Nat.le_refl _, by omega, by omega, fun _ => by omega⟩
        · obtain ⟨h1, h2, h3, h4⟩ := ih re l' r' p hp'
          exact ⟨by omega, h2, by omega, h4⟩
      · rw [if_neg hlt] at hp
        have hc0 : c = [] := by
          cases c with
          | nil => rfl
          | cons x xs => simp at hlen; omega
        split at hp
        · simp only [List.mem_singleton] at hp
          subst hp
          exact ⟨Nat.le_refl _, Nat.le_refl _, by simp, fun hn => absurd hc0 (hc3 hn)⟩
        · rcases List.mem_cons.mp hp with rfl | hp'
          · refine ⟨Nat.le_refl _, Nat.le_refl _, ?_, fun hn => absurd hc0 (hc3 hn)⟩
            simp only [List.length_cons]
            omega
          · obtain ⟨h1, h2, h3, h4⟩ := ih _ _ _ p hp'
            simp only [List.length_cons] at h1 h3 ⊢
            exact ⟨by omega, h2, by omega, h4⟩
    next hm =>
      split at hp
      · simp at hp
      · obtain ⟨h1, h2, h3, h4⟩ := ih _ _ _ p hp
        simp only [List.length_cons] at h1 h3 ⊢
        exact ⟨by omega, h2, by omega, h4⟩

theorem Re.scan_spec {re : Re} {text : List Char} {p : Nat × Nat}
    (hp : p ∈ re.scan text) :
    p.1 ≤ p.2 ∧ p.2 ≤ text.length ∧ (re.nullable = false → p.1 < p.2) := by
  obtain ⟨h1, h2, h3, h4⟩ := Re.scanAux_spec (text.length + 1) re [] text p hp
  simp only [List.length_nil, Nat.zero_add] at h3
  exact ⟨h2, h3, h4⟩

theorem stableInsert_perm {α : Type} (le : α → α → Bool) (a : α) :
    ∀ l : List α, (stableInsert le a l).Perm (a :: l) := by
  intro l
  induction l with
  | nil => simp [stableInsert]
  | cons b rest ih =>
    rw [stableInsert]
    split
    · exact List.Perm.refl _
    · exact (List.Perm.cons b ih).trans (List.Perm.swap a b rest)

theorem insertionSort_perm {α : Type} (le : α → α → Bool) :
    ∀ l : List α, (insertionSort le l).Perm l := by
  intro l
  induction l with
  | nil => simp [insertionSort]
  | cons a rest ih =>
    rw [insertionSort]
    exact (stableInsert_perm le a _).trans (List.Perm.cons a ih)

theorem mem_insertionSort {α : Type} {le : α → α → Bool} {a : α} {l : List α}
    (h : a ∈ insertionSort le l) : a ∈ l :=
  (insertionSort_perm le l).mem_iff.mp h

theorem resolveOverlapsAux_subset :
    ∀ (ms : List ((Nat × Nat) × List Char)) (used : List (Nat × Nat)),
      ∀ m ∈ resolveOverlapsAux ms used, m ∈ ms := by
  intro ms
  induction ms with
  | nil => intro used m hm; simp [resolveOverlapsAux] at hm
  | cons x rest ih =>
    intro used m hm
    rw [resolveOverlapsAux] at hm
    split at hm
    · rcases List.mem_cons.mp hm with rfl | hm'
      · exact List.mem_cons_self _ _
      · exact List.mem_cons_of_mem _ (ih _ m hm')
    · exact List.mem_cons_of_mem _ (ih _ m hm)

theorem phone_patterns_not_nullable :
    ∀ pat ∈ PHONE_PATTERNS, pat.nullable = false := by
  intro pat hpat
  simp only [PHONE_PATTERNS, List.mem_cons, List.mem_singleton] at hpat
  rcases hpat with rfl | rfl | rfl | rfl | h
  · rfl
  · rfl
  · rfl
  · rfl
  · simp at h

/-- Decomposition of a phone detection: it arises from a span of one of the
four patterns, carrying the span's slice as its value. -/
theorem phoneDetect_mem {text : String} {d : DetectionResult}
    (hd : d ∈ phoneDetect text) :
    ∃ pat ∈ PHONE_PATTERNS, ∃ p ∈ pat.scan text.data,
      d.pii_type = .phone ∧
      d.original_value = String.mk (extractSpan text.data p.1 p.2) ∧
      d.confidence = 1 ∧
      d.start_pos = (p.1 : Int) ∧ d.end_pos = (p.2 : Int) := by
  simp only [phoneDetect] at hd
  have hd' := mem_insertionSort hd
  rcases List.mem_map.mp hd' with ⟨m, hm, rfl⟩
  have hm2 := resolveOverlapsAux_subset _ [] m hm
  have hm3 := mem_insertionSort hm2
  rcases List.mem_flatMap.mp hm3 with ⟨pat, hpat, hm4⟩
  rcases List.mem_filterMap.mp hm4 with ⟨p, hp, hsome⟩
  refine ⟨pat, hpat, p, hp, ?_⟩
  split at hsome
  · cases hsome
  · injection hsome with hsome
    subst hsome
    exact ⟨rfl, rfl, rfl, rfl, rfl⟩

/-- C10: every detection returned by the email, phone, or credit-card
detector has `0 ≤ start_pos < end_pos ≤ length text`, and its
`original_value` is exactly the slice `text[start_pos:end_pos]`. -/
theorem claim_C10_detection_spans (text : String) (d : DetectionResult)
    (hd : d ∈ emailDetect text ∨ d ∈ phoneDetect text ∨ d ∈ ccDetect text) :
    0 ≤ d.start_pos ∧ d.start_pos < d.end_pos ∧ d.end_pos ≤ (text.length : Int) ∧
    ∃ s e : Nat, d.start_pos = (s : Int) ∧ d.end_pos = (e : Int) ∧
      d.original_value = String.mk (extractSpan text.data s e) := by
  have hlen : text.data.length = text.length := rfl
  rcases hd with hd | hd | hd
  · rcases List.mem_map.mp hd with ⟨p, hp, rfl⟩
    obtain ⟨h1, h2, h3⟩ := Re.scan_spec hp
    have hne : p.1 < p.2 := h3 rfl
    refine ⟨Int.ofNat_nonneg _, ?_, ?_, p.1, p.2, rfl, rfl, rfl⟩
    · show (p.1 : Int) < (p.2 : Int)
      exact_mod_cast hne
    · show (p.2 : Int) ≤ (text.length : Int)
      rw [← hlen]
      exact_mod_cast h2
  · obtain ⟨pat, hpat, p, hp, hty, hov, hcf, hst, hen⟩ := phoneDetect_mem hd
    obtain ⟨h1, h2, h3⟩ := Re.scan_spec hp
    have hne : p.1 < p.2 := h3 (phone_patterns_not_nullable pat hpat)
    refine ⟨?_, ?_, ?_, p.1, p.2, hst, hen, hov⟩
    · rw [hst]; exact Int.ofNat_nonneg _
    · rw [hst, hen]
      show (p.1 : Int) < (p.2 : Int)
      exact_mod_cast hne
    · rw [hen, ← hlen]
      show (p.2 : Int) ≤ (text.data.length : Int)
      exact_mod_cast h2
  · simp only [ccDetect] at hd
    rcases List.mem_filterMap.mp hd with ⟨p, hp, hsome⟩
    obtain ⟨h1, h2, h3⟩ := Re.scan_spec hp
    have hne : p.1 < p.2 := h3 rfl
    split at hsome
    · cases hsome
    · split at hsome
      · injection hsome with hsome
        subst hsome
        refine ⟨Int.ofNat_nonneg _, ?_, ?_, p.1, p.2, rfl, rfl, rfl⟩
        · show (p.1 : Int) < (p.2 : Int)
          exact_mod_cast hne
        · show (p.2 : Int) ≤ (text.length : Int)
          rw [← hlen]
          exact_mod_cast h2
      · cases hsome

/-- C10 witness: the invariant at the email detection found in
`"hi a@b.cc"` (span 3–9). -/
theorem claim_C10_witness :
    (0 : Int) ≤ (3 : Int) ∧ (3 : Int) < (9 : Int) ∧
    (9 : Int) ≤ ((("hi a@b.cc" : String).length : Nat) : Int) ∧
    ∃ s e : Nat, (3 : Int) = (s : Int) ∧ (9 : Int) = (e : Int) ∧
      ("a@b.cc" : String) = String.mk (extractSpan ("hi a@b.cc" : String).data s e) := by
  have h := claim_C10_detection_spans "hi a@b.cc"
    { pii_type := PIIType.email, original_value := "a@b.cc", confidence := 1,
      start_pos := 3, end_pos := 9 }
    (Or.inl (by decide))
  exact h

/-- The source's span-overlap test, as a symmetric relation on spans. -/
def spanDisj (a b : Nat × Nat) : Prop :=
  a.2 ≤ b.1 ∨ b.2 ≤ a.1

theorem spanDisj_symm {a b : Nat × Nat} (h : spanDisj a b) : spanDisj b a :=
  h.symm

theorem resolveOverlapsAux_disjoint :
    ∀ (ms : List ((Nat × Nat) × List Char)) (used : List (Nat × Nat)),
      List.Pairwise (fun a b => spanDisj a.1 b.1) (resolveOverlapsAux ms used) ∧
      ∀ m ∈ resolveOverlapsAux ms used, ∀ u ∈ used, spanDisj m.1 u := by
  intro ms
  induction ms with
  | nil => intro used; simp [resolveOverlapsAux]
  | cons x rest ih =>
    intro used
    rw [resolveOverlapsAux]
    split
    next hkeep =>
      obtain ⟨hpair, hused⟩ := ih (used ++ [x.1])
      have hxdisj : ∀ u ∈ used, spanDisj x.1 u := by
        intro u hu
        have := List.all_eq_true.mp hkeep u hu
        simp only [Bool.or_eq_true, decide_eq_true_eq] at this
        exact this
      refine ⟨List.Pairwise.cons ?_ hpair, ?_⟩
      · intro b hb
        exact spanDisj_symm (hused b hb x.1 (by simp))
      · intro m hm u hu
        rcases List.mem_cons.mp hm with rfl | hm'
        · exact hxdisj u hu
        · exact hused m hm' u (List.mem_append_left _ hu)
    next =>
      obtain ⟨hpair, hused⟩ := ih used
      exact ⟨hpair, fun m hm u hu => hused m hm u hu⟩

/-- C3: the spans of the phone detector's results never overlap (pairwise,
for every input text), and the canonical overlapping-patterns example
`"(555) 123-4567"` yields exactly one detection covering the whole string. -/
theorem claim_C3_phone_overlap_resolution (text : String) :
    List.Pairwise (fun d1 d2 : DetectionResult =>
      d1.end_pos ≤ d2.start_pos ∨ d2.end_pos ≤ d1.start_pos) (phoneDetect text) ∧
    phoneDetect "(555) 123-4567" =
      [{ pii_type := .phone, original_value := "(555) 123-4567", confidence := 1,
         start_pos := 0, end_pos := 14 }] := by
  constructor
  · simp only [phoneDetect]
    set sorted := insertionSort phoneMatchLe (PHONE_PATTERNS.flatMap fun pat =>
      (pat.scan text.data).filterMap fun p =>
        let phone := extractSpan text.data p.1 p.2
        let digit_count := (phone.filter Char.isDigit).length
        if digit_count < 10 || 15 < digit_count then none
        else some (p, phone)) with hsorted
    have hkept := (resolveOverlapsAux_disjoint sorted []).1
    have hmap : List.Pairwise (fun d1 d2 : DetectionResult =>
        d1.end_pos ≤ d2.start_pos ∨ d2.end_pos ≤ d1.start_pos)
        ((resolveOverlapsAux sorted []).map fun m =>
          ({ pii_type := .phone, original_value := String.mk m.2, confidence := 1,
             start_pos := (m.1.1 : Int), end_pos := (m.1.2 : Int) } : DetectionResult)) := by
      rw [List.pairwise_map]
      refine hkept.imp ?_
      intro a b hab
      dsimp only
      rcases hab with h | h
      · exact Or.inl (by exact_mod_cast h)
      · exact Or.inr (by exact_mod_cast h)
    have hperm := insertionSort_perm
      (fun a b : DetectionResult => decide (a.start_pos ≤ b.start_pos))
      ((resolveOverlapsAux sorted []).map fun m =>
        ({ pii_type := .phone, original_value := String.mk m.2, confidence := 1,
           start_pos := (m.1.1 : Int), end_pos := (m.1.2 : Int) } : DetectionResult))
    exact (hperm.pairwise_iff
      (fun h => h.symm : ∀ {x y : DetectionResult},
        (x.end_pos ≤ y.start_pos ∨ y.end_pos ≤ x.start_pos) →
        (y.end_pos ≤ x.start_pos ∨ x.end_pos ≤ y.start_pos))).mpr hmap
  · decide

theorem pyUpper_append (x y : String) : pyUpper (x ++ y) = pyUpper x ++ pyUpper y := by
  simp only [pyUpper]
  rw [String.data_append, List.map_append]
  rfl

theorem pyLower_append (x y : String) : pyLower (x ++ y) = pyLower x ++ pyLower y := by
  simp only [pyLower]
  rw [String.data_append, List.map_append]
  rfl

theorem pySplitAux_nonspace : ∀ (xs ys acc : List Char),
    (∀ c ∈ xs, isSpaceChar c = false) →
    pySplitAux (xs ++ ys) acc = pySplitAux ys (xs.reverse ++ acc) := by
  intro xs
  induction xs with
  | nil => intro ys acc _; simp
  | cons c rest ih =>
    intro ys acc hns
    rw [List.cons_append, pySplitAux]
    simp only [hns c (by simp), Bool.false_eq_true, if_false]
    rw [ih ys (c :: acc) (fun x hx => hns x (by simp [hx]))]
    simp [List.append_assoc]

theorem pySplit_two (F L : String) (hF : F.data ≠ []) (hL : L.data ≠ [])
    (hFns : ∀ c ∈ F.data, isSpaceChar c = false)
    (hLns : ∀ c ∈ L.data, isSpaceChar c = false) :
    pySplit (F ++ " " ++ L) = [F, L] := by
  simp only [pySplit]
  have hdata : (F ++ " " ++ L).data = F.data ++ (' ' :: L.data) := by
    rw [String.data_append, String.data_append, List.append_assoc]
    rfl
  rw [hdata, pySplitAux_nonspace F.data _ [] hFns, List.append_nil, pySplitAux]
  have hsp : isSpaceChar ' ' = true := rfl
  have hFe : (F.data.reverse).isEmpty = false := by
    cases h : F.data.reverse with
    | nil => exact absurd (by simpa using congrArg List.reverse h) hF
    | cons c cs => rfl
  rw [hsp, if_pos rfl, hFe]
  simp only [Bool.false_eq_true, if_false]
  have hLtail : pySplitAux L.data [] = [L] := by
    have h := pySplitAux_nonspace L.data [] [] hLns
    rw [List.append_nil] at h
    rw [h, List.append_nil, pySplitAux]
    have hLe : (L.data.reverse).isEmpty = false := by
      cases h' : L.data.reverse with
      | nil => exact absurd (by simpa using congrArg List.reverse h') hL
      | cons c cs => rfl
    rw [hLe]
    simp only [Bool.false_eq_true, if_false, List.reverse_reverse]
  rw [hLtail, List.reverse_reverse]

/-- The three-way case-class condition under which full-name case
preservation distributes over the two halves. -/
def sameCaseClass (F L : String) : Prop :=
  (pyIsUpper F = true ∧ pyIsUpper L = true ∧ pyIsUpper (F ++ " " ++ L) = true) ∨
  (pyIsUpper F = false ∧ pyIsLower F = true ∧ pyIsUpper L = false ∧ pyIsLower L = true ∧
    pyIsUpper (F ++ " " ++ L) = false ∧ pyIsLower (F ++ " " ++ L) = true) ∨
  (pyIsUpper F = false ∧ pyIsLower F = false ∧ pyIsUpper L = false ∧ pyIsLower L = false ∧
    pyIsUpper (F ++ " " ++ L) = false ∧ pyIsLower (F ++ " " ++ L) = false)

theorem preserveCase_append_distrib {F L : String} (a b : String)
    (hcase : sameCaseClass F L) :
    preserveCase (F ++ " " ++ L) (a ++ " " ++ b) =
      preserveCase F a ++ " " ++ preserveCase L b := by
  rcases hcase with ⟨h1, h2, h3⟩ | ⟨h1, h2, h3, h4, h5, h6⟩ | ⟨h1, h2, h3, h4, h5, h6⟩
  · rw [preserveCase, if_pos h3, preserveCase, if_pos h1, preserveCase, if_pos h2,
      pyUpper_append, pyUpper_append]
    rfl
  · rw [preserveCase, if_neg (by simp [h5]), if_pos h6, preserveCase, if_neg (by simp [h1]),
      if_pos h2, preserveCase, if_neg (by simp [h3]), if_pos h4,
      pyLower_append, pyLower_append]
    rfl
  · rw [preserveCase, if_neg (by simp [h5]), if_neg (by simp [h6]), preserveCase,
      if_neg (by simp [h1]), if_neg (by simp [h2]), preserveCase,
      if_neg (by simp [h3]), if_neg (by simp [h4])]

theorem generateFirstName_last_map (original : String) (rep : Replacer) :
    (generateFirstName original rep).2.last_name_map = rep.last_name_map := by
  simp only [generateFirstName, Replacer.draw]
  repeat' split
  all_goals rfl

theorem generateLastName_first_map (original : String) (rep : Replacer) :
    (generateLastName original rep).2.first_name_map = rep.first_name_map := by
  simp only [generateLastName, Replacer.draw]
  repeat' split
  all_goals rfl

theorem generateFirstName_spec (original : String) (rep : Replacer) :
    ∃ a, (generateFirstName original rep).1 = preserveCase original a ∧
      alookup (pyLower original) ((generateFirstName original rep).2).first_name_map
        = some a := by
  simp only [generateFirstName, Replacer.draw]
  cases h : alookup (pyLower original) rep.first_name_map with
  | some v => exact ⟨v, by simp [h]⟩
  | none => exact ⟨rep.faker.firstName rep.ctr, by simp [h, alookup]⟩

theorem generateLastName_spec (original : String) (rep : Replacer) :
    ∃ b, (generateLastName original rep).1 = preserveCase original b ∧
      alookup (pyLower original) ((generateLastName original rep).2).last_name_map
        = some b := by
  simp only [generateLastName, Replacer.draw]
  cases h : alookup (pyLower original) rep.last_name_map with
  | some v => exact ⟨v, by simp [h]⟩
  | none => exact ⟨rep.faker.lastName rep.ctr, by simp [h, alookup]⟩

theorem fullName_linkage (rep : Replacer) (F L a b : String)
    (hF : F.data ≠ []) (hL : L.data ≠ [])
    (hFns : ∀ c ∈ F.data, isSpaceChar c = false)
    (hLns : ∀ c ∈ L.data, isSpaceChar c = false)
    (h3 : alookup (F ++ " " ++ L, PIIType.fullName) rep.cache = none)
    (ha : alookup (pyLower F) rep.first_name_map = some a)
    (hb : alookup (pyLower L) rep.last_name_map = some b)
    (hcase : sameCaseClass F L) :
    (getOrCreate rep (F ++ " " ++ L) PIIType.fullName).1 =
      preserveCase F a ++ " " ++ preserveCase L b := by
  rw [getOrCreate_miss h3]
  show (generateFor rep (F ++ " " ++ L) PIIType.fullName).1 = _
  rw [show generateFor rep (F ++ " " ++ L) PIIType.fullName
      = generateFullName (F ++ " " ++ L) rep from rfl]
  simp only [generateFullName]
  rw [pySplit_two F L hF hL hFns hLns]
  simp only [List.length_cons, List.length_nil]
  rw [if_pos (by omega : 2 ≤ 0 + 1 + 1)]
  rw [show ([F, L] : List String)[0]! = F from rfl,
    show ([F, L] : List String).getLast! = L from rfl, ha, hb]
  exact preserveCase_append_distrib a b hcase

theorem nameLinkage_first_then_last (rep : Replacer) (F L : String)
    (hF : F.data ≠ []) (hL : L.data ≠ [])
    (hFns : ∀ c ∈ F.data, isSpaceChar c = false)
    (hLns : ∀ c ∈ L.data, isSpaceChar c = false)
    (h1 : alookup (F, PIIType.firstName) rep.cache = none)
    (h2 : alookup (L, PIIType.lastName) rep.cache = none)
    (h3 : alookup (F ++ " " ++ L, PIIType.fullName) rep.cache = none)
    (hcase : sameCaseClass F L) :
    (getOrCreate ((getOrCreate ((getOrCreate rep F PIIType.firstName).2) L
        PIIType.lastName).2) (F ++ " " ++ L) PIIType.fullName).1 =
      (getOrCreate rep F PIIType.firstName).1 ++ " " ++
        (getOrCreate ((getOrCreate rep F PIIType.firstName).2) L PIIType.lastName).1 := by
  obtain ⟨a, ha1, ha2⟩ := generateFirstName_spec F rep
  have hgf : generateFor rep F PIIType.firstName = generateFirstName F rep := rfl
  have hr1 : (getOrCreate rep F PIIType.firstName).1 = preserveCase F a := by
    rw [getOrCreate_miss h1, hgf]
    exact ha1
  have hst1cache : ((getOrCreate rep F PIIType.firstName).2).cache =
      ((F, PIIType.firstName), (generateFirstName F rep).1) :: rep.cache := by
    rw [getOrCreate_miss h1, hgf]
    simp [generateFirstName_cache]
  have hst1first : ((getOrCreate rep F PIIType.firstName).2).first_name_map =
      (generateFirstName F rep).2.first_name_map := by
    rw [getOrCreate_miss h1, hgf]
  have hst1last : ((getOrCreate rep F PIIType.firstName).2).last_name_map =
      rep.last_name_map := by
    rw [getOrCreate_miss h1, hgf]
    simp [generateFirstName_last_map]
  set st1 := (getOrCreate rep F PIIType.firstName).2 with hst1
  have h2' : alookup (L, PIIType.lastName) st1.cache = none := by
    rw [hst1cache, alookup_cons, if_neg (by simp), h2]
  obtain ⟨b, hb1, hb2⟩ := generateLastName_spec L st1
  have hgl : generateFor st1 L PIIType.lastName = generateLastName L st1 := rfl
  have hr2 : (getOrCreate st1 L PIIType.lastName).1 = preserveCase L b := by
    rw [getOrCreate_miss h2', hgl]
    exact hb1
  have hst2cache : ((getOrCreate st1 L PIIType.lastName).2).cache =
      ((L, PIIType.lastName), (generateLastName L st1).1) :: st1.cache := by
    rw [getOrCreate_miss h2', hgl]
    simp [generateLastName_cache]
  have hst2first : ((getOrCreate st1 L PIIType.lastName).2).first_name_map =
      st1.first_name_map := by
    rw [getOrCreate_miss h2', hgl]
    simp [generateLastName_first_map]
  have hst2last : ((getOrCreate st1 L PIIType.lastName).2).last_name_map =
      (generateLastName L st1).2.last_name_map := by
    rw [getOrCreate_miss h2', hgl]
  set st2 := (getOrCreate st1 L PIIType.lastName).2 with hst2
  have h3' : alookup (F ++ " " ++ L, PIIType.fullName) st2.cache = none := by
    rw [hst2cache, alookup_cons, if_neg (by simp), hst1cache, alookup_cons,
      if_neg (by simp), h3]
  have hamap : alookup (pyLower F) st2.first_name_map = some a := by
    rw [hst2first, hst1first]
    exact ha2
  have hbmap : alookup (pyLower L) st2.last_name_map = some b := by
    rw [hst2last]
    exact hb2
  rw [fullName_linkage st2 F L a b hF hL hFns hLns h3' hamap hbmap hcase, hr1, hr2]

theorem nameLinkage_last_then_first (rep : Replacer) (F L : String)
    (hF : F.data ≠ []) (hL : L.data ≠ [])
    (hFns : ∀ c ∈ F.data, isSpaceChar c = false)
    (hLns : ∀ c ∈ L.data, isSpaceChar c = false)
    (h1 : alookup (F, PIIType.firstName) rep.cache = none)
    (h2 : alookup (L, PIIType.lastName) rep.cache = none)
    (h3 : alookup (F ++ " " ++ L, PIIType.fullName) rep.cache = none)
    (hcase : sameCaseClass F L) :
    (getOrCreate ((getOrCreate ((getOrCreate rep L PIIType.lastName).2) F
        PIIType.firstName).2) (F ++ " " ++ L) PIIType.fullName).1 =
      (getOrCreate ((getOrCreate rep L PIIType.lastName).2) F PIIType.firstName).1
        ++ " " ++ (getOrCreate rep L PIIType.lastName).1 := by
  obtain ⟨b, hb1, hb2⟩ := generateLastName_spec L rep
  have hgl : generateFor rep L PIIType.lastName = generateLastName L rep := rfl
  have hr1 : (getOrCreate rep L PIIType.lastName).1 = preserveCase L b := by
    rw [getOrCreate_miss h2, hgl]
    exact hb1
  have hst1cache : ((getOrCreate rep L PIIType.lastName).2).cache =
      ((L, PIIType.lastName), (generateLastName L rep).1) :: rep.cache := by
    rw [getOrCreate_miss h2, hgl]
    simp [generateLastName_cache]
  have hst1last : ((getOrCreate rep L PIIType.lastName).2).last_name_map =
      (generateLastName L rep).2.last_name_map := by
    rw [getOrCreate_miss h2, hgl]
  set st1 := (getOrCreate rep L PIIType.lastName).2 with hst1
  have h1' : alookup (F, PIIType.firstName) st1.cache = none := by
    rw [hst1cache, alookup_cons, if_neg (by simp), h1]
  obtain ⟨a, ha1, ha2⟩ := generateFirstName_spec F st1
  have hgf : generateFor st1 F PIIType.firstName = generateFirstName F st1 := rfl
  have hr2 : (getOrCreate st1 F PIIType.firstName).1 = preserveCase F a := by
    rw [getOrCreate_miss h1', hgf]
    exact ha1
  have hst2cache : ((getOrCreate st1 F PIIType.firstName).2).cache =
      ((F, PIIType.firstName), (generateFirstName F st1).1) :: st1.cache := by
    rw [getOrCreate_miss h1', hgf]
    simp [generateFirstName_cache]
  have hst2first : ((getOrCreate st1 F PIIType.firstName).2).first_name_map =
      (generateFirstName F st1).2.first_name_map := by
    rw [getOrCreate_miss h1', hgf]
  have hst2last : ((getOrCreate st1 F PIIType.firstName).2).last_name_map =
      st1.last_name_map := by
    rw [getOrCreate_miss h1', hgf]
    simp [generateFirstName_last_map]
  set st2 := (getOrCreate st1 F PIIType.firstName).2 with hst2
  have h3' : alookup (F ++ " " ++ L, PIIType.fullName) st2.cache = none := by
    rw [hst2cache, alookup_cons, if_neg (by simp), hst1cache, alookup_cons,
      if_neg (by simp), h3]
  have hamap : alookup (pyLower F) st2.first_name_map = some a := by
    rw [hst2first]
    exact ha2
  have hbmap : alookup (pyLower L) st2.last_name_map = some b := by
    rw [hst2last, hst1last]
    exact hb2
  rw [fullName_linkage st2 F L a b hF hL hFns hLns h3' hamap hbmap hcase, hr1, hr2]

/-- C4 (amended): replacing `F` as FIRST_NAME, `L` as LAST_NAME (in either
order), then `"F L"` as FULL_NAME — none of the three keys being cached yet —
yields a full-name replacement equal to the standalone replacement of `F`,
one space, and the standalone replacement of `L`, PROVIDED `F`, `L` and
`"F L"` fall in the same case class (all `isupper`, all `islower`, or all
neither): `_preserve_case` is applied to the joined fake as a whole, so for
mixed case classes the standalone and joined casings differ. -/
theorem claim_C4_name_linkage (rep : Replacer) (F L : String)
    (hF : F.data ≠ []) (hL : L.data ≠ [])
    (hFns : ∀ c ∈ F.data, isSpaceChar c = false)
    (hLns : ∀ c ∈ L.data, isSpaceChar c = false)
    (h1 : alookup (F, PIIType.firstName) rep.cache = none)
    (h2 : alookup (L, PIIType.lastName) rep.cache = none)
    (h3 : alookup (F ++ " " ++ L, PIIType.fullName) rep.cache = none)
    (hcase : sameCaseClass F L) :
    (getOrCreate ((getOrCreate ((getOrCreate rep F PIIType.firstName).2) L
        PIIType.lastName).2) (F ++ " " ++ L) PIIType.fullName).1 =
      (getOrCreate rep F PIIType.firstName).1 ++ " " ++
        (getOrCreate ((getOrCreate rep F PIIType.firstName).2) L PIIType.lastName).1 ∧
    (getOrCreate ((getOrCreate ((getOrCreate rep L PIIType.lastName).2) F
        PIIType.firstName).2) (F ++ " " ++ L) PIIType.fullName).1 =
      (getOrCreate ((getOrCreate rep L PIIType.lastName).2) F PIIType.firstName).1
        ++ " " ++ (getOrCreate rep L PIIType.lastName).1 :=
  ⟨nameLinkage_first_then_last rep F L hF hL hFns hLns h1 h2 h3 hcase,
   nameLinkage_last_then_first rep F L hF hL hFns hLns h1 h2 h3 hcase⟩

/-- C4 witness: the amended claim at `F = "John"`, `L = "Doe"` (both mixed
case) with concrete fakes — both orders give `"Michael Smith"`. -/
theorem claim_C4_witness :
    (getOrCreate ((getOrCreate ((getOrCreate { faker := cexFaker, ctr := 0 } "John"
        PIIType.firstName).2) "Doe" PIIType.lastName).2)
        ("John" ++ " " ++ "Doe") PIIType.fullName).1 =
      (getOrCreate { faker := cexFaker, ctr := 0 } "John" PIIType.firstName).1 ++ " " ++
        (getOrCreate ((getOrCreate { faker := cexFaker, ctr := 0 } "John"
          PIIType.firstName).2) "Doe" PIIType.lastName).1 ∧
    (getOrCreate ((getOrCreate ((getOrCreate { faker := cexFaker, ctr := 0 } "Doe"
        PIIType.lastName).2) "John" PIIType.firstName).2)
        ("John" ++ " " ++ "Doe") PIIType.fullName).1 =
      (getOrCreate ((getOrCreate { faker := cexFaker, ctr := 0 } "Doe"
        PIIType.lastName).2) "John" PIIType.firstName).1 ++ " " ++
        (getOrCreate { faker := cexFaker, ctr := 0 } "Doe" PIIType.lastName).1 :=
  claim_C4_name_linkage { faker := cexFaker, ctr := 0 } "John" "Doe"
    (by decide) (by decide) (by decide) (by decide) rfl rfl rfl
    (Or.inr (Or.inr (by refine ⟨?_, ?_, ?_, ?_, ?_, ?_⟩ <;> decide)))

/-- C4 counterexample: with `F = "JOHN"` (upper) and `L = "doe"` (lower)
the full-name replacement is `"Michael Smith"` while the standalone
replacements join to `"MICHAEL smith"` — the claim fails as stated. -/
theorem claim_C4_counterexample :
    (getOrCreate ((getOrCreate ((getOrCreate { faker := cexFaker, ctr := 0 } "JOHN"
        PIIType.firstName).2) "doe" PIIType.lastName).2)
        ("JOHN" ++ " " ++ "doe") PIIType.fullName).1 ≠
      (getOrCreate { faker := cexFaker, ctr := 0 } "JOHN" PIIType.firstName).1 ++ " " ++
        (getOrCreate ((getOrCreate { faker := cexFaker, ctr := 0 } "JOHN"
          PIIType.firstName).2) "doe" PIIType.lastName).1 := by
  decide

/-- A second concrete Faker whose fakes share no substring with the C9
example's originals. -/
def exampleFaker : FakerGen where
  email _ := "kim42@demo.org"
  phoneNumber _ := "9876543210"
  firstName _ := "Michael"
  lastName _ := "Smith"
  personName _ := "Michael Smith"
  creditCardNumber _ := "4242424242424242"

/-- The Email and Phone detectors, as the walker consumes them. -/
def exampleDetectors : List DetectorFn :=
  [fun text _ => emailDetect text, fun text _ => phoneDetect text]

/-- The C9 example text. -/
def c9text : String := "Contact john@example.com or 555-123-4567"

/-- A fresh sanitizer state over `exampleFaker`. -/
def exampleState : SanitizerState :=
  { replacer := { faker := exampleFaker, ctr := 0 } }

/-- The string the walker reconstructs for the C9 example. -/
def c9out : String :=
  (sanitizeString exampleDetectors exampleState c9text "message").1

/-- A detector reporting a result with the default (unknown, `0:0`) span,
to exercise the fallback substring replacement. -/
def unknownSpanDetector : DetectorFn := fun _ _ =>
  [{ pii_type := .email, original_value := "john", confidence := 1 }]

/-- C9: on `"Contact john@example.com or 555-123-4567"` with the Email and
Phone detectors, the walker pools exactly two detections and splices
right-to-left, producing a string that contains neither original value and
keeps both replacements in the original relative order; a detection whose
span is invalid (`end_pos ≤ start_pos`) falls back to a first-occurrence
substring replace. -/
theorem claim_C9_multi_type_splice :
    (exampleDetectors.flatMap fun det => det c9text "message").length = 2 ∧
    c9out = "Contact kim42@demo.org or 987-654-3210" ∧
    ¬ ("john@example.com" : String).data <:+: c9out.data ∧
    ¬ ("555-123-4567" : String).data <:+: c9out.data ∧
    c9out = "Contact " ++ "kim42@demo.org" ++ " or " ++ "987-654-3210" ∧
    (sanitizeString [unknownSpanDetector] exampleState "say john john" "f").1 =
      String.mk (pyReplaceOnce ("say john john" : String).data
        ("john" : String).data ("kim42@demo.org" : String).data) := by
  refine ⟨by decide, by decide, by decide, by decide, by decide, by decide⟩

theorem flatMap_single {α β : Type} (f : α → List β) (x : α) :
    ([x] : List α).flatMap f = f x := by simp

theorem run_exact_digits {m : Nat} {l r : List Char}
    (hall : ∀ c ∈ r, c.isDigit = true) (hle : m ≤ r.length) :
    Re.run (.exactly m Char.isDigit) (l, r) = [((r.take m).reverse ++ l, r.drop m)] := by
  simp only [Re.exactly, Re.run, repCandidates, List.takeWhile_eq_self_iff.mpr hall]
  rw [Nat.min_eq_left hle, if_pos (Nat.le_refl m)]
  rw [show m + 1 - m = 1 from by omega, show List.range 1 = [0] from rfl]
  simp

theorem run_exact_digits_fail {m : Nat} {l r : List Char}
    (hall : ∀ c ∈ r, c.isDigit = true) (hlt : r.length < m) :
    Re.run (.exactly m Char.isDigit) (l, r) = [] := by
  simp only [Re.exactly, Re.run, repCandidates, List.takeWhile_eq_self_iff.mpr hall]
  rw [Nat.min_eq_right (by omega), if_neg (by omega)]
  simp

theorem run_opt_headfail {p : Char → Bool} {l r : List Char}
    (h : ∀ c, r.head? = some c → p c = false) :
    Re.run (.opt p) (l, r) = [(l, r)] := by
  have htw : r.takeWhile p = [] := by
    cases r with
    | nil => rfl
    | cons c rest =>
      rw [List.takeWhile_cons, if_neg (by simp [h c rfl])]
  simp only [Re.opt, Re.run, repCandidates, htw]
  simp

theorem run_reps37_digits {l r : List Char}
    (hall : ∀ c ∈ r, c.isDigit = true) :
    Re.run (.reps 3 (some 7) Char.isDigit) (l, r) =
      if 3 ≤ min 7 r.length then
        (List.range (min 7 r.length + 1 - 3)).map
          (fun i => ((r.take (min 7 r.length - i)).reverse ++ l, r.drop (min 7 r.length - i)))
      else [] := by
  simp only [Re.run, repCandidates, List.takeWhile_eq_self_iff.mpr hall]
  split
  · rw [List.map_map]
    rfl
  · simp

theorem boundaryOk_nil_digit {r : List Char} {c : Char} (hc : c.isDigit = true)
    (hr : r.head? = some c) : boundaryOk [] r = true := by
  cases r with
  | nil => simp at hr
  | cons x rest =>
    simp only [List.head?_cons, Option.some.injEq] at hr
    subst hr
    simp [boundaryOk, isWordChar, Char.isAlphanum, hc]

theorem boundaryOk_digit_digit {l r : List Char} {c c' : Char}
    (hc : c.isDigit = true) (hc' : c'.isDigit = true)
    (hl : l.head? = some c) (hr : r.head? = some c') : boundaryOk l r = false := by
  simp [boundaryOk, hl, hr, isWordChar, Char.isAlphanum, hc, hc']

theorem boundaryOk_digit_nil {l : List Char} {c : Char}
    (hc : c.isDigit = true) (hl : l.head? = some c) : boundaryOk l [] = true := by
  simp [boundaryOk, hl, isWordChar, Char.isAlphanum, hc]

theorem run_bnd_true {l r : List Char} (h : boundaryOk l r = true) :
    Re.run .bnd (l, r) = [(l, r)] := by
  simp [Re.run, h]

theorem run_bnd_false {l r : List Char} (h : boundaryOk l r = false) :
    Re.run .bnd (l, r) = [] := by
  simp [Re.run, h]

theorem digit_not_sep {c : Char} (hc : c.isDigit = true) : isSepChar c = false := by
  cases hsep : isSepChar c
  · rfl
  · exfalso
    simp only [isSepChar, isSpaceChar, Bool.or_eq_true, decide_eq_true_eq] at hsep
    rcases hsep with ((((((h | h) | h) | h) | h) | h) | h) <;>
      (subst h; exact absurd hc (by decide))

theorem all_digit_drop {ds : List Char} (hall : ∀ c ∈ ds, c.isDigit = true) (k : Nat) :
    ∀ c ∈ ds.drop k, c.isDigit = true :=
  fun c hc => hall c (List.mem_of_mem_drop hc)

theorem drop_headfail_sep {ds : List Char} (hall : ∀ c ∈ ds, c.isDigit = true) (k : Nat) :
    ∀ c, (ds.drop k).head? = some c → isSepChar c = false :=
  fun c hc => digit_not_sep (all_digit_drop hall k c (mem_of_head?_eq hc))

theorem seq_exact_step {m : Nat} {tail : Re} {l r : List Char}
    (hall : ∀ c ∈ r, c.isDigit = true) (hle : m ≤ r.length) :
    (Re.seq (.exactly m Char.isDigit) tail).run (l, r) =
      tail.run ((r.take m).reverse ++ l, r.drop m) := by
  rw [show (Re.seq (.exactly m Char.isDigit) tail).run (l, r) =
    ((Re.exactly m Char.isDigit).run (l, r)).flatMap tail.run from rfl,
    run_exact_digits hall hle, flatMap_single]

theorem seq_exact_step_fail {m : Nat} {tail : Re} {l r : List Char}
    (hall : ∀ c ∈ r, c.isDigit = true) (hlt : r.length < m) :
    (Re.seq (.exactly m Char.isDigit) tail).run (l, r) = [] := by
  rw [show (Re.seq (.exactly m Char.isDigit) tail).run (l, r) =
    ((Re.exactly m Char.isDigit).run (l, r)).flatMap tail.run from rfl,
    run_exact_digits_fail hall hlt]
  rfl

theorem seq_opt_step {p : Char → Bool} {tail : Re} {l r : List Char}
    (hhead : ∀ c, r.head? = some c → p c = false) :
    (Re.seq (.opt p) tail).run (l, r) = tail.run (l, r) := by
  rw [show (Re.seq (.opt p) tail).run (l, r) =
    ((Re.opt p).run (l, r)).flatMap tail.run from rfl,
    run_opt_headfail hhead, flatMap_single]

theorem rev_take_head {ds : List Char} (hall : ∀ c ∈ ds, c.isDigit = true) {j : Nat}
    (h1 : 1 ≤ j) (hds : ds ≠ []) :
    ∃ c, ((ds.take j).reverse).head? = some c ∧ c.isDigit = true := by
  cases h : (ds.take j).reverse with
  | nil =>
    rw [List.reverse_eq_nil_iff, List.take_eq_nil_iff] at h
    rcases h with h | h
    · omega
    · exact absurd h hds
  | cons c cs =>
    refine ⟨c, rfl, hall c ?_⟩
    have : c ∈ (ds.take j).reverse := by simp [h]
    rw [List.mem_reverse] at this
    exact List.mem_of_mem_take this

theorem take_chunk (ds : List Char) (a b : Nat) :
    ((ds.drop a).take b).reverse ++ (ds.take a).reverse = (ds.take (a + b)).reverse := by
  rw [← List.reverse_append, ← List.take_add]

theorem drop_chunk (ds : List Char) (a b : Nat) : (ds.drop a).drop b = ds.drop (a + b) := by
  rw [List.drop_drop]

theorem CARD_ALT1_run_digits (ds : List Char) (hall : ∀ c ∈ ds, c.isDigit = true)
    (h13 : 13 ≤ ds.length) :
    CARD_ALT1.run ([], ds) =
      (Re.reps 3 (some 7) Char.isDigit).run ((ds.take 12).reverse, ds.drop 12) := by
  rw [show CARD_ALT1 = Re.seq (.exactly 4 Char.isDigit) (Re.seq (.opt isSepChar)
    (Re.seq (.exactly 4 Char.isDigit) (Re.seq (.opt isSepChar)
    (Re.seq (.exactly 4 Char.isDigit) (Re.seq (.opt isSepChar)
    (.reps 3 (some 7) Char.isDigit)))))) from rfl]
  rw [seq_exact_step hall (by omega), List.append_nil,
    seq_opt_step (drop_headfail_sep hall 4),
    seq_exact_step (all_digit_drop hall 4) (by simp [List.length_drop]; omega),
    take_chunk, drop_chunk]
  norm_num
  rw [seq_opt_step (drop_headfail_sep hall 8),
    seq_exact_step (all_digit_drop hall 8) (by simp [List.length_drop]; omega),
    take_chunk, drop_chunk]
  norm_num
  rw [seq_opt_step (drop_headfail_sep hall 12)]

theorem CARD_ALT2_run_digits_fail (ds : List Char) (hall : ∀ c ∈ ds, c.isDigit = true)
    (h13 : 13 ≤ ds.length) (h14 : ds.length ≤ 14) :
    CARD_ALT2.run ([], ds) = [] := by
  rw [show CARD_ALT2 = Re.seq (.exactly 4 Char.isDigit) (Re.seq (.opt isSepChar)
    (Re.seq (.exactly 6 Char.isDigit) (Re.seq (.opt isSepChar)
    (.exactly 5 Char.isDigit)))) from rfl]
  rw [seq_exact_step hall (by omega), List.append_nil,
    seq_opt_step (drop_headfail_sep hall 4),
    seq_exact_step (all_digit_drop hall 4) (by simp [List.length_drop]; omega),
    take_chunk, drop_chunk]
  norm_num
  rw [seq_opt_step (drop_headfail_sep hall 10)]
  exact run_exact_digits_fail (all_digit_drop hall 10) (by simp [List.length_drop]; omega)

theorem card_run_outer (ds : List Char) (hall : ∀ c ∈ ds, c.isDigit = true)
    (h1 : 1 ≤ ds.length) :
    CARD_PATTERN.run ([], ds) =
      (CARD_ALT1.run ([], ds)).flatMap Re.bnd.run ++
      (CARD_ALT2.run ([], ds)).flatMap Re.bnd.run := by
  obtain ⟨c, rest, rfl⟩ : ∃ c rest, ds = c :: rest := by
    cases ds with
    | nil => simp at h1
    | cons c rest => exact ⟨c, rest, rfl⟩
  rw [show CARD_PATTERN.run ([], c :: rest) =
    (Re.bnd.run ([], c :: rest)).flatMap ((Re.seq (.alt CARD_ALT1 CARD_ALT2) .bnd).run)
    from rfl]
  rw [run_bnd_true (boundaryOk_nil_digit (hall c (by simp)) (List.head?_cons)), flatMap_single]
  rw [show (Re.seq (.alt CARD_ALT1 CARD_ALT2) .bnd).run ([], c :: rest) =
    ((CARD_ALT1.run ([], c :: rest)) ++ (CARD_ALT2.run ([], c :: rest))).flatMap
      Re.bnd.run from rfl]
  rw [List.flatMap_append]

theorem card_run_empty (ds : List Char) (hall : ∀ c ∈ ds, c.isDigit = true)
    (h13 : 13 ≤ ds.length) (h14 : ds.length ≤ 14) :
    CARD_PATTERN.run ([], ds) = [] := by
  rw [card_run_outer ds hall (by omega),
    CARD_ALT1_run_digits ds hall h13,
    CARD_ALT2_run_digits_fail ds hall h13 h14,
    run_reps37_digits (all_digit_drop hall 12)]
  rw [if_neg (by simp [List.length_drop]; omega)]
  rfl

theorem card_run_head (ds : List Char) (hall : ∀ c ∈ ds, c.isDigit = true)
    (h15 : 15 ≤ ds.length) (h19 : ds.length ≤ 19) :
    (CARD_PATTERN.run ([], ds)).head? = some (ds.reverse, []) := by
  rw [card_run_outer ds hall (by omega),
    CARD_ALT1_run_digits ds hall (by omega),
    run_reps37_digits (all_digit_drop hall 12)]
  have hm : (ds.drop 12).length = ds.length - 12 := by simp [List.length_drop]
  have hmin : min 7 (ds.drop 12).length = (ds.drop 12).length := by
    rw [hm]; omega
  rw [if_pos (by rw [hmin, hm]; omega), hmin]
  have hrange : (ds.drop 12).length + 1 - 3 = ((ds.drop 12).length - 3) + 1 := by
    rw [hm]; omega
  rw [hrange, List.range_succ_eq_map, List.map_cons, List.flatMap_cons]
  have hk0 : (ds.drop 12).length - 0 = (ds.drop 12).length := by omega
  rw [hk0, List.take_length, List.drop_length]
  have hl : (ds.drop 12).reverse ++ (ds.take 12).reverse = ds.reverse := by
    rw [← List.reverse_append, List.take_append_drop]
  rw [hl]
  obtain ⟨c, hc, hcd⟩ : ∃ c, (ds.reverse).head? = some c ∧ c.isDigit = true := by
    have := rev_take_head hall (j := ds.length) (by omega)
      (by intro h; rw [h] at h15; simp at h15)
    rwa [List.take_length] at this
  rw [run_bnd_true (boundaryOk_digit_nil hcd hc)]
  rfl

theorem card_run_mid (l r : List Char) (hl : l ≠ [])
    (hld : ∀ c ∈ l, c.isDigit = true) (hrd : ∀ c ∈ r, c.isDigit = true) :
    CARD_PATTERN.run (l, r) = [] := by
  obtain ⟨cl, lrest, rfl⟩ : ∃ c rest, l = c :: rest := by
    cases l with
    | nil => exact absurd rfl hl
    | cons c rest => exact ⟨c, rest, rfl⟩
  cases r with
  | cons cr rrest =>
    rw [show CARD_PATTERN.run (cl :: lrest, cr :: rrest) =
      (Re.bnd.run (cl :: lrest, cr :: rrest)).flatMap
        ((Re.seq (.alt CARD_ALT1 CARD_ALT2) .bnd).run) from rfl]
    rw [run_bnd_false (boundaryOk_digit_digit (hld cl (by simp)) (hrd cr (by simp))
      List.head?_cons List.head?_cons)]
    rfl
  | nil =>
    rw [show CARD_PATTERN.run (cl :: lrest, []) =
      (Re.bnd.run (cl :: lrest, [])).flatMap
        ((Re.seq (.alt CARD_ALT1 CARD_ALT2) .bnd).run) from rfl]
    rw [run_bnd_true (boundaryOk_digit_nil (hld cl (by simp)) List.head?_cons),
      flatMap_single]
    rw [show (Re.seq (.alt CARD_ALT1 CARD_ALT2) .bnd).run (cl :: lrest, []) =
      ((CARD_ALT1.run (cl :: lrest, [])) ++ (CARD_ALT2.run (cl :: lrest, []))).flatMap
        Re.bnd.run from rfl]
    rw [show CARD_ALT1 = Re.seq (.exactly 4 Char.isDigit) (Re.seq (.opt isSepChar)
      (Re.seq (.exactly 4 Char.isDigit) (Re.seq (.opt isSepChar)
      (Re.seq (.exactly 4 Char.isDigit) (Re.seq (.opt isSepChar)
      (.reps 3 (some 7) Char.isDigit)))))) from rfl,
      seq_exact_step_fail (by simp) (by simp)]
    rw [show CARD_ALT2 = Re.seq (.exactly 4 Char.isDigit) (Re.seq (.opt isSepChar)
      (Re.seq (.exactly 6 Char.isDigit) (Re.seq (.opt isSepChar)
      (.exactly 5 Char.isDigit)))) from rfl,
      seq_exact_step_fail (by simp) (by simp)]
    rfl

theorem card_scanAux_tail : ∀ (fuel : Nat) (l r : List Char), l ≠ [] →
    (∀ c ∈ l, c.isDigit = true) → (∀ c ∈ r, c.isDigit = true) →
    Re.scanAux fuel CARD_PATTERN l r = [] := by
  intro fuel
  induction fuel with
  | zero => intro l r _ _ _; rfl
  | succ fuel ih =>
    intro l r hl hld hrd
    rw [Re.scanAux_succ, card_run_mid l r hl hld hrd]
    cases r with
    | nil => rfl
    | cons c rest =>
      exact ih (c :: l) rest (by simp) (by
        intro x hx
        rcases List.mem_cons.mp hx with rfl | hx'
        · exact hrd x (by simp)
        · exact hld x hx')
        (fun x hx => hrd x (by simp [hx]))

theorem card_scan_digits (ds : List Char) (hall : ∀ c ∈ ds, c.isDigit = true)
    (h13 : 13 ≤ ds.length) (h19 : ds.length ≤ 19) :
    CARD_PATTERN.scan ds = if 15 ≤ ds.length then [(0, ds.length)] else [] := by
  rw [Re.scan, Re.scanAux_succ]
  by_cases h15 : 15 ≤ ds.length
  · rw [card_run_head ds hall h15 h19, if_pos h15]
    simp only [List.length_nil, List.length_reverse, Nat.zero_add, Nat.sub_zero]
    rw [if_pos (by omega : 0 < ds.length)]
    rw [card_scanAux_tail ds.length ds.reverse []
      (by rw [ne_eq, List.reverse_eq_nil_iff]; intro h; rw [h] at h15; simp at h15)
      (fun c hc => hall c (List.mem_reverse.mp hc)) (by simp)]
  · rw [card_run_empty ds hall h13 (by omega), if_neg h15]
    obtain ⟨c, rest, rfl⟩ : ∃ c rest, ds = c :: rest := by
      cases ds with
      | nil => simp at h13
      | cons c rest => exact ⟨c, rest, rfl⟩
    simp only [List.head?_nil]
    exact card_scanAux_tail _ [c] rest (by simp)
      (by
        intro x hx
        rcases List.mem_cons.mp hx with rfl | hx'
        · exact hall x (by simp)
        · simp at hx')
      (fun x hx => hall x (by simp [hx]))

theorem ccDetect_digits (ds : List Char) (hall : ∀ c ∈ ds, c.isDigit = true)
    (h13 : 13 ≤ ds.length) (h19 : ds.length ≤ 19) :
    ccDetect (String.mk ds) =
      if 15 ≤ ds.length ∧ luhnCheck ds = true then
        [{ pii_type := PIIType.creditCard, original_value := String.mk ds, confidence := 1,
           start_pos := 0, end_pos := (ds.length : Int) }]
      else [] := by
  unfold ccDetect
  rw [show (String.mk ds).data = ds from rfl, card_scan_digits ds hall h13 h19]
  by_cases h15 : 15 ≤ ds.length
  · rw [if_pos h15]
    have hex : extractSpan ds 0 ds.length = ds := by
      simp [extractSpan]
    have hfil : ds.filter (fun c => !isSepChar c) = ds :=
      List.filter_eq_self.mpr (fun c hc => by simp [digit_not_sep (hall c hc)])
    rw [List.filterMap_cons]
    dsimp only
    rw [hex, hfil]
    have hgate : (decide (ds.length < 13) || decide (19 < ds.length)) = false := by
      simp only [Bool.or_eq_false_iff, decide_eq_false_iff_not]
      omega
    rw [hgate]
    simp only [Bool.false_eq_true, if_false, List.filterMap_nil]
    cases hluhn : luhnCheck ds with
    | true => simp [h15]
    | false => simp
  · rw [if_neg h15, if_neg (by intro h; exact h15 h.1)]
    rfl

/-- C2 (amended): for a text that is exactly an isolated run of digits, the
credit-card detector reports a (single, whole-string, confidence-1.0) match
iff the run has 15 to 19 digits AND the Luhn checksum holds; 13- and
14-digit runs are never matched, because without separators the compiled
regex requires at least 4+4+4+3 = 15 digits.  The claim's examples hold:
`"4532015112830366"` is detected and `"4532015112830367"` is not. -/
theorem claim_C2_luhn_soundness (ds : List Char) (hall : ∀ c ∈ ds, c.isDigit = true)
    (h13 : 13 ≤ ds.length) (h19 : ds.length ≤ 19) :
    ccDetect (String.mk ds) =
      (if 15 ≤ ds.length ∧ luhnCheck ds = true then
        [{ pii_type := PIIType.creditCard, original_value := String.mk ds, confidence := 1,
           start_pos := 0, end_pos := (ds.length : Int) }]
      else []) ∧
    ccDetect "4532015112830366" =
      [{ pii_type := PIIType.creditCard, original_value := "4532015112830366",
         confidence := 1, start_pos := 0, end_pos := 16 }] ∧
    ccDetect "4532015112830367" = [] :=
  ⟨ccDetect_digits ds hall h13 h19, by decide, by decide⟩

/-- C2 witness: the amended statement at the 16-digit Luhn-valid
`"5425233430109903"`. -/
theorem claim_C2_witness :
    ccDetect "5425233430109903" =
      (if 15 ≤ ("5425233430109903" : String).data.length ∧
          luhnCheck ("5425233430109903" : String).data = true then
        [{ pii_type := PIIType.creditCard, original_value := "5425233430109903",
           confidence := 1, start_pos := 0,
           end_pos := (("5425233430109903" : String).data.length : Int) }]
      else []) :=
  (claim_C2_luhn_soundness ("5425233430109903" : String).data (by decide) (by decide)
    (by decide)).1

/-- C2 counterexample: `"4222222222222"` is a 13-digit run passing the Luhn
checksum, yet the detector returns nothing — the claim's 13–19 range is
wrong. -/
theorem claim_C2_counterexample :
    luhnCheck ("4222222222222" : String).data = true ∧
    ("4222222222222" : String).data.length = 13 ∧
    ccDetect "4222222222222" = [] :=
  ⟨by decide, by decide, by decide⟩
